import Mathlib

/-!
Verification development for the meeting-dashboard record manager
(`src/meeting_dashboard.py`).

The embedding models the dynamically-typed pandas rows of the source as
explicit Lean values:

* a `Meeting ID` cell is an `IdCell`: after the import pipeline's
  `fillna('').astype(str)` step the column holds strings, so a cell is
  either a string that parses as a number (`num`, numeric identity values
  are modelled as integers), a non-numeric string (`junk`), or a pandas
  missing value `NA`/`NaN` (`na`);
* `Meeting Date` is modelled after `pd.to_datetime(..., errors='coerce')`
  as an `Option Int` (seconds since the epoch; `none` is `NaT`);
* text columns (`Status`, `Start Time`, the searchable columns) are plain
  strings, matching the source's `fillna('').astype(str)` normalisation;
* instants (`now`) are `Int` seconds.
-/

/-- A `Meeting ID` cell of a dataframe row.  `num n` is a value that
`pd.to_numeric` coerces to the number `n`; `junk s` is a string that
coerces to `NaN`; `na` is a missing value (`pd.NA` / `NaN`). -/
inductive IdCell where
  | na : IdCell
  | num : Int → IdCell
  | junk : String → IdCell
deriving DecidableEq, Repr

/-- `pd.to_numeric(cell, errors='coerce')`, with `NaN` results as `none`. -/
def toNumeric : IdCell → Option Int
  | .num n => some n
  | _ => none

/-- A dataframe row restricted to the columns the verified logic reads.
`others` stands for the remaining template columns (`Purpose`, `Agenda`,
`Time Zone`, ..., in template order); the import merge loop treats them
uniformly, overwriting each one. -/
structure Row where
  meetingId : IdCell        -- 'Meeting ID'
  status : String           -- 'Status'
  meetingDate : Option Int  -- 'Meeting Date' (coerced by pd.to_datetime)
  startTime : String        -- 'Start Time'
  title : String            -- 'Meeting Title'
  organization : String     -- 'Organization'
  client : String           -- 'Client'
  stakeholder : String      -- 'Stakeholder Name'
  purpose : String          -- 'Purpose'
  attendees : String        -- 'Attendees'
  guests : String           -- 'Internal External Guests'
  notes : String            -- 'Notes'
  others : List String      -- remaining template columns
deriving DecidableEq, Repr

/-- The numeric identities of a row list:
`pd.to_numeric(df['Meeting ID'], errors='coerce').dropna()`. -/
def numIds (rs : List Row) : List Int :=
  rs.filterMap (fun r => toNumeric r.meetingId)

/-- Membership test on a list of integers (a pandas `isin` / `in` check). -/
def memInt (n : Int) : List Int → Bool
  | [] => false
  | m :: l => n == m || memInt n l

/-- `Series.max()` of a list of numbers (`none` on an all-NaN column). -/
def listMax : List Int → Option Int
  | [] => none
  | n :: l =>
    match listMax l with
    | none => some n
    | some m => some (max n m)

/-- `max_id` as the source computes it: the column maximum with `NaN`
replaced by `0` (`max_id = ... if not pd.isna(...) else 0`). -/
def maxIdD (rs : List Row) : Int :=
  (listMax (numIds rs)).getD 0

/-! ## String helpers

Python's `str.strip()`, `str.lower()` and `str.split` are modelled on the
character list underlying a Lean string (kernel-reducible, unlike the
`Substring`-based core functions). -/

/-- `str.strip()`. -/
def strTrim (s : String) : String :=
  String.mk (((s.data.dropWhile Char.isWhitespace).reverse.dropWhile
    Char.isWhitespace).reverse)

/-- `str.lower()` (ASCII letters, which covers the source's keyword sets). -/
def strLower (s : String) : String :=
  String.mk (s.data.map Char.toLower)

/-- Split a character list on a separator character (`str.split(sep)`). -/
def splitOnChar (sep : Char) : List Char → List (List Char)
  | [] => [[]]
  | c :: cs =>
    if c = sep then [] :: splitOnChar sep cs
    else
      match splitOnChar sep cs with
      | [] => [[c]]
      | g :: gs => (c :: g) :: gs

/-! ## `normalize_status` (source lines 327-355) -/

/-- The dynamically-typed argument of `normalize_status`: `None`, a pandas
`NaN`, or a value whose `str()` form is the given string. -/
inductive StatusInput where
  | noneV : StatusInput
  | nanV : StatusInput
  | strV : String → StatusInput
deriving DecidableEq, Repr

/-- `normalize_status(status)`: normalize a status to one of the four
database values `'Upcoming'`, `'Ongoing'`, `'Ended'`, `'Completed'`. -/
def normalize_status : StatusInput → String
  | .noneV => "Upcoming"
  | .nanV => "Upcoming"
  | .strV v =>
    let t := strTrim v
    if t = "" then "Upcoming"
    else if strLower t ∈ ["nan", "none", "null", ""] then "Upcoming"
    else
      let l := strLower t
      if l ∈ ["upcoming", "scheduled", "pending", "planned", "future"] then "Upcoming"
      else if l ∈ ["ongoing", "in progress", "in-progress", "active", "running", "started"] then "Ongoing"
      else if l = "completed" then "Completed"
      else if l ∈ ["ended", "finished", "done", "closed", "past"] then "Ended"
      else if t ∈ ["Upcoming", "Ongoing", "Ended", "Completed"] then t
      else "Upcoming"

/-- The lowercased spellings that `normalize_status` maps to a value other
than `'Upcoming'`. -/
def nonUpcomingSpellings : List String :=
  ["ongoing", "in progress", "in-progress", "active", "running", "started",
   "completed", "ended", "finished", "done", "closed", "past"]

/-! ## Start-time parsing and `calculate_status` (source lines 618-659) -/

/-- Value of a digit string (the characters are all assumed to be digits). -/
def digitsVal (l : List Char) : Nat :=
  l.foldl (fun a c => a * 10 + (c.toNat - 48)) 0

/-- Parse a 1-2 digit numeric field of a `strptime` format, accepting values
in `[lo, hi]` (this is what the `%H`/`%M`/`%S`/`%I` regexes match). -/
def parseField (l : List Char) (lo hi : Nat) : Option Nat :=
  if l ≠ [] ∧ l.length ≤ 2 ∧ l.all Char.isDigit then
    let v := digitsVal l
    if lo ≤ v ∧ v ≤ hi then some v else none
  else none

/-- Parse the `MM<ws>AM/PM` (or `SS<ws>AM/PM`) tail of a 12-hour format:
1-2 digits in `[lo, hi]`, then one or more whitespace characters (`strptime`
turns a literal blank into `\s+`), then `AM` or `PM` case-insensitively.
Returns the numeric field and `true` for `PM`. -/
def parseFieldAmPm (l : List Char) (lo hi : Nat) : Option (Nat × Bool) :=
  let digits := l.takeWhile Char.isDigit
  let rest := l.dropWhile Char.isDigit
  let ws := rest.takeWhile Char.isWhitespace
  let marker := rest.dropWhile Char.isWhitespace
  match parseField digits lo hi with
  | none => none
  | some v =>
    if ws ≠ [] then
      let m := marker.map Char.toLower
      if m = ['a', 'm'] then some (v, false)
      else if m = ['p', 'm'] then some (v, true)
      else none
    else none

/-- Convert a 12-hour clock hour (1-12) plus an AM/PM flag to 0-23. -/
def hour12to24 (i : Nat) (pm : Bool) : Nat :=
  if pm then (if i = 12 then 12 else i + 12)
  else (if i = 12 then 0 else i)

/-- `datetime.strptime(s, '%H:%M:%S')` as seconds past midnight.  (The
`strptime` regex for `%S` also admits the leap seconds 60-61, but the
`datetime` constructor then raises, which the caller's `except` treats as a
parse failure, so the effective range is 0-59.) -/
def parseHMS (s : String) : Option Nat :=
  match splitOnChar ':' s.data with
  | [h, m, sec] =>
    match parseField h 0 23, parseField m 0 59, parseField sec 0 59 with
    | some hv, some mv, some sv => some (hv * 3600 + mv * 60 + sv)
    | _, _, _ => none
  | _ => none

/-- `datetime.strptime(s, '%H:%M')` as seconds past midnight. -/
def parseHM (s : String) : Option Nat :=
  match splitOnChar ':' s.data with
  | [h, m] =>
    match parseField h 0 23, parseField m 0 59 with
    | some hv, some mv => some (hv * 3600 + mv * 60)
    | _, _ => none
  | _ => none

/-- `datetime.strptime(s, '%I:%M %p')` as seconds past midnight. -/
def parseIMp (s : String) : Option Nat :=
  match splitOnChar ':' s.data with
  | [i, rest] =>
    match parseField i 1 12, parseFieldAmPm rest 0 59 with
    | some iv, some (mv, pm) => some (hour12to24 iv pm * 3600 + mv * 60)
    | _, _ => none
  | _ => none

/-- `datetime.strptime(s, '%I:%M:%S %p')` as seconds past midnight. -/
def parseIMSp (s : String) : Option Nat :=
  match splitOnChar ':' s.data with
  | [i, m, rest] =>
    match parseField i 1 12, parseField m 0 59, parseFieldAmPm rest 0 59 with
    | some iv, some mv, some (sv, pm) =>
      some (hour12to24 iv pm * 3600 + mv * 60 + sv)
    | _, _, _ => none
  | _ => none

/-- The `for fmt in ['%H:%M:%S', '%H:%M', '%I:%M %p', '%I:%M:%S %p']` loop
of `calculate_status`: the first format that parses wins. -/
def parseStartTime (s : String) : Option Nat :=
  match parseHMS s with
  | some v => some v
  | none =>
    match parseHM s with
    | some v => some v
    | none =>
      match parseIMp s with
      | some v => some v
      | none => parseIMSp s

/-- `calculate_status(row)` (source lines 618-659), with the coerced
`Meeting Date`, the `Start Time` string and `now` made explicit.
`meeting_date.date()` truncates the timestamp to its day
(`Int.fdiv d 86400`); the meeting is assumed to last one hour. -/
def calculate_status (meetingDate : Option Int) (startTime : String) (now : Int) : String :=
  match meetingDate with
  | none => "Upcoming"          -- pd.isna(meeting_date)
  | some d =>
    if strTrim startTime = "" then "Upcoming"
    else
      match parseStartTime (strTrim startTime) with
      | none => "Upcoming"      -- no format matched
      | some t =>
        let start := Int.fdiv d 86400 * 86400 + (t : Int)
        if now < start then "Upcoming"
        else if start ≤ now ∧ now < start + 3600 then "Ongoing"
        else "Ended"

/-! ## The Import Data reconcile block (source lines 2654-2743)

The source performs this merge inline in the `Import Data` button handler
with the policy constants of lines 2571-2573 (`import_mode` fixed to
`"Update & Add New"` and `overwrite_status = False`; `overwrite_status` is
kept as the parameter `ov` below).  The batch rows arrive with every
template column present and the text columns passed through
`fillna('').astype(str)` (lines 2636-2647), which the `Row` type encodes.
Both dataframes always carry a `Meeting ID` column, so the
`'Meeting ID' not in ... .columns` branches are never taken. -/

/-- Lines 2654-2661: derive a status for batch rows whose `Status` is
blank, when both `Meeting Date` and `Start Time` are present. -/
def statusFill (now : Int) (r : Row) : Row :=
  if strTrim r.status = "" then
    if r.meetingDate.isSome ∧ strTrim r.startTime ≠ "" then
      { r with status := calculate_status r.meetingDate r.startTime now }
    else { r with status := "" }
  else r

/-- Lines 2667-2669: `import_df['Meeting ID'].replace('', pd.NA)` and
`.replace(' ', pd.NA)` — an empty or single-space string becomes missing. -/
def cleanId : IdCell → IdCell
  | .junk "" => .na
  | .junk " " => .na
  | c => c

def cleanIdRow (r : Row) : Row :=
  { r with meetingId := cleanId r.meetingId }

/-- Is the cell a pandas missing value (`isna`)? -/
def isNaCell : IdCell → Bool
  | .na => true
  | _ => false

/-- Line 2703/2705: `pd.to_numeric(..., errors='coerce')` applied to the
`Meeting ID` column — non-numeric strings become `NaN`. -/
def toNumCell (c : IdCell) : IdCell :=
  match toNumeric c with
  | some n => .num n
  | none => .na

def coerceIdRow (r : Row) : Row :=
  { r with meetingId := toNumCell r.meetingId }

/-- Line 2673/2693: assign `range(k, k + len)` to the whole `Meeting ID`
column. -/
def assignSeq : List Row → Int → List Row
  | [], _ => []
  | r :: rs, k => { r with meetingId := .num k } :: assignSeq rs (k + 1)

/-- Lines 2675-2681 / 2695-2701: fill only the missing (`isna`) identities
with consecutive integers starting at `k`; returns the filled rows and the
next unused identity. -/
def fillMissing : List Row → Int → List Row × Int
  | [], k => ([], k)
  | r :: rs, k =>
    if isNaCell r.meetingId then
      let p := fillMissing rs (k + 1)
      ({ r with meetingId := .num k } :: p.1, p.2)
    else
      let p := fillMissing rs k
      (r :: p.1, p.2)

/-- Lines 2727-2734, the field-merge of one `to_update` row into the
matching existing record: every column of the batch row overwrites the
existing one except `Status`, which is overwritten (and then rederived)
only when `overwrite_status` is set.  (The recompute guard
`overwrite_status or pd.isna(row.get('Status'))` reduces to
`overwrite_status` because the batch `Status` column went through
`fillna('').astype(str)` and is never `NaN`.) -/
def mergeRow (ov : Bool) (old new : Row) (now : Int) : Row :=
  let merged := { new with status := if ov then new.status else old.status }
  if ov then
    { merged with status := calculate_status merged.meetingDate merged.startTime now }
  else merged

/-- Line 2726: locate the first existing row whose coerced `Meeting ID`
equals the batch row's identity (`.index[0]`) and merge in place.  (On no
match the source would raise `IndexError`; the partition guarantees a match
exists, and the model leaves the collection unchanged in that case.) -/
def updateFirst (ov : Bool) (now : Int) : List Row → Int → Row → List Row
  | [], _, _ => []
  | c :: cs, n, new =>
    if toNumeric c.meetingId = some n then mergeRow ov c new now :: cs
    else c :: updateFirst ov now cs n new

/-- Lines 2723-2734, one iteration of the `to_update` loop. -/
def applyUpdate (ov : Bool) (now : Int) (cur : List Row) (row : Row) : List Row :=
  match row.meetingId with
  | .num n => updateFirst ov now cur n row
  | _ => cur   -- pd.notna(meeting_id) fails: row skipped

/-- Line 2713: `mask_update = import_df_ids.isin(existing_ids) & notna`. -/
def matchesExisting (existing : List Int) (r : Row) : Bool :=
  match r.meetingId with
  | .num n => memInt n existing
  | _ => false

/-- Line 2739: derive a fresh status for a `to_add` row. -/
def deriveStatus (now : Int) (r : Row) : Row :=
  { r with status := calculate_status r.meetingDate r.startTime now }

/-- Lines 2672-2681: identity allocation when the collection is empty.
When every batch identity is missing the whole column becomes
`range(1, len + 1)`; otherwise only the missing ones are filled starting
from the batch maximum plus one. -/
def allocateEmpty (b2 : List Row) : List Row :=
  if b2.all (fun r => isNaCell r.meetingId) then assignSeq b2 1
  else if b2.any (fun r => isNaCell r.meetingId) then
    (fillMissing b2 (maxIdD b2 + 1)).1
  else b2

/-- Lines 2686-2701: identity allocation against a non-empty collection.
When every batch identity is missing the whole column becomes
`range(max_current + 1, ...)`; otherwise the missing ones are filled
starting from `max(max_current, max_import) + 1`. -/
def allocateNonEmpty (cur b2 : List Row) : List Row :=
  if b2.all (fun r => isNaCell r.meetingId) then
    assignSeq b2 (maxIdD cur + 1)
  else if b2.any (fun r => isNaCell r.meetingId) then
    (fillMissing b2 (max (maxIdD cur) (maxIdD b2) + 1)).1
  else b2

/-- The reconcile of the Import Data handler (lines 2654-2743):
merge `batch` into `cur` and return
`(resulting collection, added_count, updated_count)`. -/
def reconcile (ov : Bool) (cur batch : List Row) (now : Int) : List Row × Nat × Nat :=
  let b2 := (batch.map (statusFill now)).map cleanIdRow
  if cur.isEmpty then
    -- lines 2671-2684
    let b3 := allocateEmpty b2
    (b3, b3.length, 0)
  else
    -- lines 2686-2743
    let b3 := allocateNonEmpty cur b2
    let b4 := b3.map coerceIdRow
    let cur2 := cur.map coerceIdRow
    let existing := numIds cur2
    let toUpdate := b4.filter (fun r => matchesExisting existing r)
    let toAdd := b4.filter (fun r => !matchesExisting existing r)
    let cur3 := toUpdate.foldl (applyUpdate ov now) cur2
    let added := toAdd.map (deriveStatus now)
    (cur3 ++ added, added.length, toUpdate.length)

/-! ## Persistence: `save_meeting_to_supabase` (lines 357-475) and
`save_meetings` (lines 521-616)

The relational backend is modelled by the list of `meeting_id` values it
stores; "reachable throughout" means every backend call succeeds, so
deletes remove the row and upserts insert-or-update it.  The Excel write
is modelled by a flag saying whether `df.to_excel` succeeds. -/

/-- Insert-or-update of one meeting row keyed by its id (lines 376-471). -/
def upsert (db : List Int) (n : Int) : List Int :=
  if memInt n db then db else db ++ [n]

/-- `save_meeting_to_supabase(row)` (lines 357-475): reject a missing,
non-numeric or non-positive `Meeting ID`, otherwise upsert the row. -/
def save_meeting_to_supabase (db : List Int) (r : Row) : List Int × Bool :=
  match toNumeric r.meetingId with
  | none => (db, false)            -- missing / empty / unparseable id
  | some n =>
    if n ≤ 0 then (db, false)      -- line 373
    else (upsert db n, true)

/-- Lines 576-595: the per-row sync loop of `save_meetings`.  Rows whose
`Meeting ID` does not coerce to a number are skipped (`continue`); a
failing `save_meeting_to_supabase` clears `supabase_success`. -/
def syncRows (db : List Int) (ok : Bool) : List Row → List Int × Bool
  | [] => (db, ok)
  | r :: rs =>
    match toNumeric r.meetingId with
    | none => syncRows db ok rs
    | some _ =>
      let p := save_meeting_to_supabase db r
      syncRows p.1 (ok && p.2) rs

/-- `save_meetings(df)` (lines 521-616): returns the backend contents and
the boolean result.  `useSupabase` is `get_use_supabase()`, `poolOk` is
`init_db_pool()`, `excelOk` is whether `df.to_excel` succeeds. -/
def save_meetings (db : List Int) (df : List Row)
    (useSupabase poolOk excelOk : Bool) : List Int × Bool :=
  if df.isEmpty then
    -- lines 523-545: clear both stores; any Excel error is swallowed
    (if useSupabase && poolOk then [] else db, true)
  else
    let sync :=
      if useSupabase && poolOk then
        -- lines 553-565: delete ids absent from the dataframe
        let currentIds := numIds df
        let db1 := db.filter (fun i => memInt i currentIds)
        -- lines 576-595: upsert every row with a coercible id
        syncRows db1 true df
      else (db, true)
    let ret := if useSupabase && poolOk then sync.2 else true
    -- lines 605-616: Excel backup; a failure is fatal only without Supabase
    if excelOk then (sync.1, ret)
    else if !useSupabase then (sync.1, false)
    else (sync.1, ret)

/-! ## `filter_meetings` (source lines 809-860)

`date_start`/`date_end` arrive as calendar dates; `pd.to_datetime` maps
them to the first second of the day, and the `date_end` bound is extended
by `+ 1 day - 1 second`.  A record whose `Meeting Date` is `NaT` compares
as `False` against either bound.

The search at line 856 uses `Series.str.contains(search_text_lower,
na=False)` whose default is `regex=True`: a pattern free of regex
metacharacters is matched as a literal substring, a pattern containing
metacharacters is interpreted as a regular expression, and a syntactically
invalid pattern raises an uncaught `re.error`.  The embedding models only
the literal fragment, delimited by `isLiteralPattern`: `containsLower` is
a substring test, and statements about the search behaviour of
`filter_meetings` carry an `isLiteralPattern` hypothesis.  (The `na=False`
default is moot here: the searched columns are strings after
`astype(str)`.) -/

/-- The characters Python's `re` module treats specially (outside a
character class); a pattern containing none of them is matched literally
by `re.search`. -/
def regexMetachars : List Char :=
  ['.', '^', '$', '*', '+', '?', '\x7b', '\x7d', '[', ']', '\\', '|', '(', ')']

/-- Search text on which `str.contains` (default `regex=True`) degenerates
to a literal substring test: text free of regex metacharacters.  Patterns
outside this fragment are outside the embedding: the source applies them
as regular expressions, raising an uncaught `re.error` when invalid. -/
def isLiteralPattern (pat : String) : Bool :=
  pat.data.all (fun c => !(regexMetachars.contains c))

/-- Is `pat` an infix of `hay`? -/
def listInfix (pat hay : List Char) : Bool :=
  if pat.isPrefixOf hay then true
  else
    match hay with
    | [] => pat.isEmpty
    | _ :: t => listInfix pat t

/-- Case-insensitive match of the search text against one column value
(`astype(str).str.lower().str.contains(search_text_lower)`), modelled as a
substring test — faithful exactly on the `isLiteralPattern` fragment. -/
def containsLower (field pat : String) : Bool :=
  listInfix (strLower pat).data (strLower field).data

/-- Line 852-856: the OR of the match over the fixed search columns. -/
def searchHit (searchText : String) (r : Row) : Bool :=
  containsLower r.title searchText ||
  containsLower r.organization searchText ||
  containsLower r.client searchText ||
  containsLower r.stakeholder searchText ||
  containsLower r.purpose searchText ||
  containsLower r.attendees searchText ||
  containsLower r.guests searchText ||
  containsLower r.notes searchText

/-- `filter_meetings(df, status_filter, date_start, date_end, search_text)`
(lines 809-860). -/
def filter_meetings (df : List Row) (statusFilter : String)
    (dateStart dateEnd : Option Int) (searchText : String) : List Row :=
  let f1 := if statusFilter ≠ "All" then
      df.filter (fun r => r.status = statusFilter)
    else df
  let f2 := match dateStart with
    | some d => f1.filter (fun r =>
        match r.meetingDate with
        | some md => decide (d ≤ md)
        | none => false)
    | none => f1
  let f3 := match dateEnd with
    | some d => f2.filter (fun r =>
        match r.meetingDate with
        | some md => decide (md ≤ d + 86400 - 1)
        | none => false)
    | none => f2
  if searchText ≠ "" then f3.filter (searchHit searchText) else f3

/-! ## Rows with already-coerced identity cells -/

/-- The identity cell is a fixed point of the `pd.to_numeric` coercion
(it is numeric or missing, never a junk string). -/
def IdCoerced (r : Row) : Prop := toNumCell r.meetingId = r.meetingId

/-- A concrete row with the given identity cell and organization, all other
fields blank (exercises the reconcile pipeline on explicit inputs). -/
def mkRow (cell : IdCell) (org : String) : Row :=
  ⟨cell, "", none, "", "", org, "", "", "", "", "", "", []⟩

/-! ## Theorems -/

theorem memInt_iff {n : Int} {l : List Int} : memInt n l = true ↔ n ∈ l := by
  induction l with
  | nil => simp [memInt]
  | cons m l ih =>
    simp only [memInt, Bool.or_eq_true, beq_iff_eq, ih, List.mem_cons]

theorem le_listMax {n : Int} {l : List Int} (h : n ∈ l) :
    ∃ m, listMax l = some m ∧ n ≤ m := by
  induction l with
  | nil => cases h
  | cons a l ih =>
    cases h with
    | head =>
      cases hl : listMax l with
      | none => exact ⟨n, by simp [listMax, hl]⟩
      | some m => exact ⟨max n m, by simp [listMax, hl]⟩
    | tail _ hmem =>
      obtain ⟨m, hm, hle⟩ := ih hmem
      exact ⟨max a m, by simp [listMax, hm], le_trans hle (le_max_right a m)⟩

theorem mem_numIds_le_maxIdD {n : Int} {rs : List Row} (h : n ∈ numIds rs) :
    n ≤ maxIdD rs := by
  obtain ⟨m, hm, hle⟩ := le_listMax h
  simpa [maxIdD, hm] using hle

/-! ## Identity bookkeeping lemmas -/

theorem numIds_nil : numIds [] = [] := rfl

theorem numIds_cons (r : Row) (rs : List Row) :
    numIds (r :: rs) =
      match toNumeric r.meetingId with
      | some n => n :: numIds rs
      | none => numIds rs := by
  simp only [numIds, List.filterMap_cons]
  cases toNumeric r.meetingId <;> rfl

theorem numIds_append (xs ys : List Row) :
    numIds (xs ++ ys) = numIds xs ++ numIds ys := by
  simp [numIds, List.filterMap_append]

theorem numIds_map_pres {f : Row → Row}
    (h : ∀ r, toNumeric (f r).meetingId = toNumeric r.meetingId)
    (rs : List Row) : numIds (rs.map f) = numIds rs := by
  simp only [numIds, List.filterMap_map]
  congr 1
  funext r
  exact h r

theorem statusFill_meetingId (now : Int) (r : Row) :
    (statusFill now r).meetingId = r.meetingId := by
  unfold statusFill
  split <;> [split <;> rfl; rfl]

theorem cleanId_toNumeric (c : IdCell) : toNumeric (cleanId c) = toNumeric c := by
  unfold cleanId
  split <;> rfl

theorem toNumCell_toNumeric (c : IdCell) : toNumeric (toNumCell c) = toNumeric c := by
  cases c <;> rfl

theorem toNumCell_toNumCell (c : IdCell) : toNumCell (toNumCell c) = toNumCell c := by
  cases c <;> rfl

theorem mergeRow_meetingId (ov : Bool) (old new : Row) (now : Int) :
    (mergeRow ov old new now).meetingId = new.meetingId := by
  unfold mergeRow
  split <;> rfl

theorem mergeRow_false (old new : Row) (now : Int) :
    mergeRow false old new now = { new with status := old.status } := rfl

theorem deriveStatus_meetingId (now : Int) (r : Row) :
    (deriveStatus now r).meetingId = r.meetingId := rfl

theorem numIds_cons_some (r : Row) (n : Int) (rs : List Row)
    (h : toNumeric r.meetingId = some n) :
    numIds (r :: rs) = n :: numIds rs := by
  simp [numIds, List.filterMap_cons, h]

theorem numIds_cons_none (r : Row) (rs : List Row)
    (h : toNumeric r.meetingId = none) :
    numIds (r :: rs) = numIds rs := by
  simp [numIds, List.filterMap_cons, h]

theorem updateFirst_numIds (ov : Bool) (now : Int) (cs : List Row) (n : Int)
    (new : Row) (hnew : toNumeric new.meetingId = some n) :
    numIds (updateFirst ov now cs n new) = numIds cs := by
  induction cs with
  | nil => rfl
  | cons c cs ih =>
    unfold updateFirst
    split
    next h =>
      rw [numIds_cons_some _ n cs (by rw [mergeRow_meetingId]; exact hnew),
        numIds_cons_some _ n cs h]
    next h =>
      cases hc : toNumeric c.meetingId with
      | some m => rw [numIds_cons_some _ m _ hc, numIds_cons_some _ m _ hc, ih]
      | none => rw [numIds_cons_none _ _ hc, numIds_cons_none _ _ hc, ih]

theorem applyUpdate_numIds (ov : Bool) (now : Int) (cs : List Row) (row : Row) :
    numIds (applyUpdate ov now cs row) = numIds cs := by
  unfold applyUpdate
  cases h : row.meetingId with
  | num n => exact updateFirst_numIds ov now cs n row (by simp [toNumeric, h])
  | na => rfl
  | junk s => rfl

theorem foldl_applyUpdate_numIds (ov : Bool) (now : Int) (rows : List Row)
    (cs : List Row) :
    numIds (rows.foldl (applyUpdate ov now) cs) = numIds cs := by
  induction rows generalizing cs with
  | nil => rfl
  | cons r rows ih =>
    simp only [List.foldl_cons, ih, applyUpdate_numIds]

theorem matchesExisting_num (ex : List Int) (r : Row) (n : Int)
    (h : r.meetingId = .num n) : matchesExisting ex r = memInt n ex := by
  simp [matchesExisting, h]

theorem matchesExisting_not_num (ex : List Int) (r : Row)
    (h : toNumeric r.meetingId = none) : matchesExisting ex r = false := by
  unfold matchesExisting
  cases hc : r.meetingId with
  | num n => rw [hc] at h; simp [toNumeric] at h
  | na => rfl
  | junk s => rfl

theorem numIds_filter_not_matches (ex : List Int) (rs : List Row) :
    numIds (rs.filter (fun r => !matchesExisting ex r)) =
      (numIds rs).filter (fun n => !memInt n ex) := by
  induction rs with
  | nil => rfl
  | cons r rs ih =>
    cases hc : r.meetingId with
    | na =>
      rw [List.filter_cons_of_pos
          (by rw [matchesExisting_not_num ex r (by simp [toNumeric, hc])]; rfl),
        numIds_cons_none r rs (by simp [toNumeric, hc]),
        numIds_cons_none r _ (by simp [toNumeric, hc]), ih]
    | junk s =>
      rw [List.filter_cons_of_pos
          (by rw [matchesExisting_not_num ex r (by simp [toNumeric, hc])]; rfl),
        numIds_cons_none r rs (by simp [toNumeric, hc]),
        numIds_cons_none r _ (by simp [toNumeric, hc]), ih]
    | num n =>
      rw [numIds_cons_some r n rs (by simp [toNumeric, hc])]
      cases h : memInt n ex with
      | true =>
        rw [List.filter_cons_of_neg
            (by rw [matchesExisting_num ex r n hc, h]; simp),
          List.filter_cons_of_neg (by rw [h]; simp), ih]
      | false =>
        rw [List.filter_cons_of_pos
            (by rw [matchesExisting_num ex r n hc, h]; rfl),
          List.filter_cons_of_pos (by rw [h]; rfl),
          numIds_cons_some r n _ (by simp [toNumeric, hc]), ih]

/-! ### Allocation lemmas -/

theorem numIds_assignSeq_cons (r : Row) (rs : List Row) (k : Int) :
    numIds (assignSeq (r :: rs) k) = k :: numIds (assignSeq rs (k + 1)) := by
  rw [assignSeq, numIds_cons_some _ k _ (by simp [toNumeric])]

theorem mem_numIds_assignSeq {n : Int} (rs : List Row) (k : Int)
    (h : n ∈ numIds (assignSeq rs k)) : k ≤ n := by
  induction rs generalizing k with
  | nil => simp [assignSeq, numIds] at h
  | cons r rs ih =>
    rw [numIds_assignSeq_cons] at h
    rcases List.mem_cons.1 h with rfl | htail
    · exact le_refl n
    · have := ih (k + 1) htail
      omega

theorem nodup_numIds_assignSeq (rs : List Row) (k : Int) :
    (numIds (assignSeq rs k)).Nodup := by
  induction rs generalizing k with
  | nil => simp [assignSeq, numIds]
  | cons r rs ih =>
    rw [numIds_assignSeq_cons]
    refine List.nodup_cons.2 ⟨fun hmem => ?_, ih (k + 1)⟩
    have := mem_numIds_assignSeq rs (k + 1) hmem
    omega

theorem fillMissing_cons_na (r : Row) (rs : List Row) (k : Int)
    (h : isNaCell r.meetingId = true) :
    fillMissing (r :: rs) k =
      ({ r with meetingId := .num k } :: (fillMissing rs (k + 1)).1,
        (fillMissing rs (k + 1)).2) := by
  rw [fillMissing, if_pos h]

theorem fillMissing_cons_not_na (r : Row) (rs : List Row) (k : Int)
    (h : isNaCell r.meetingId = false) :
    fillMissing (r :: rs) k =
      (r :: (fillMissing rs k).1, (fillMissing rs k).2) := by
  rw [fillMissing, if_neg (by simp [h])]

theorem fillMissing_snd_ge (rs : List Row) (k : Int) :
    k ≤ (fillMissing rs k).2 := by
  induction rs generalizing k with
  | nil => simp [fillMissing]
  | cons r rs ih =>
    cases h : isNaCell r.meetingId with
    | true =>
      rw [fillMissing_cons_na r rs k h]
      have := ih (k + 1)
      simpa using by omega
    | false =>
      rw [fillMissing_cons_not_na r rs k h]
      simpa using ih k

theorem fillMissing_mem {n : Int} (rs : List Row) (k : Int)
    (h : n ∈ numIds (fillMissing rs k).1) :
    n ∈ numIds rs ∨ (k ≤ n ∧ n < (fillMissing rs k).2) := by
  induction rs generalizing k with
  | nil => simp [fillMissing, numIds] at h
  | cons r rs ih =>
    cases hna : isNaCell r.meetingId with
    | true =>
      rw [fillMissing_cons_na r rs k hna] at h ⊢
      rw [numIds_cons_some _ k _ (by simp [toNumeric])] at h
      rcases List.mem_cons.1 h with rfl | htail
      · right
        refine ⟨le_refl n, lt_of_lt_of_le ?_ (fillMissing_snd_ge rs (n + 1))⟩
        omega
      · rcases ih (k + 1) htail with hin | ⟨h1, h2⟩
        · left
          cases hc : toNumeric r.meetingId with
          | some m => rw [numIds_cons_some r m rs hc]; exact List.mem_cons_of_mem _ hin
          | none => rw [numIds_cons_none r rs hc]; exact hin
        · exact Or.inr ⟨by omega, h2⟩
    | false =>
      rw [fillMissing_cons_not_na r rs k hna] at h ⊢
      cases hc : toNumeric r.meetingId with
      | none =>
        rw [numIds_cons_none _ _ hc] at h
        rw [numIds_cons_none r rs hc]
        exact ih k h
      | some m =>
        rw [numIds_cons_some _ m _ hc] at h
        rw [numIds_cons_some r m rs hc]
        rcases List.mem_cons.1 h with rfl | htail
        · exact Or.inl (List.mem_cons_self _ _)
        · rcases ih k htail with hin | hfresh
          · exact Or.inl (List.mem_cons_of_mem _ hin)
          · exact Or.inr hfresh

theorem fillMissing_filter_nodup (rs : List Row) (k : Int) (p : Int → Bool)
    (hlt : ∀ n ∈ numIds rs, n < k)
    (hP : ∀ n : Int, k ≤ n → p n = true)
    (hnd : ((numIds rs).filter p).Nodup) :
    ((numIds (fillMissing rs k).1).filter p).Nodup := by
  induction rs generalizing k with
  | nil => exact hnd
  | cons r rs ih =>
    cases hna : isNaCell r.meetingId with
    | true =>
      rw [fillMissing_cons_na r rs k hna]
      rw [numIds_cons_some _ k _ (by simp [toNumeric]),
        List.filter_cons_of_pos (hP k (le_refl k))]
      refine List.nodup_cons.2 ⟨fun hmem => ?_, ?_⟩
      · have hmem' := List.mem_of_mem_filter hmem
        rcases fillMissing_mem rs (k + 1) hmem' with hin | ⟨h1, _⟩
        · have := hlt k (by
            cases hc : toNumeric r.meetingId with
            | some m => rw [numIds_cons_some r m rs hc]; exact List.mem_cons_of_mem _ hin
            | none => rw [numIds_cons_none r rs hc]; exact hin)
          omega
        · omega
      · refine ih (k + 1) (fun n hn => ?_) (fun n hn => hP n (by omega)) ?_
        · have := hlt n (by
            cases hc : toNumeric r.meetingId with
            | some m => rw [numIds_cons_some r m rs hc]; exact List.mem_cons_of_mem _ hn
            | none => rw [numIds_cons_none r rs hc]; exact hn)
          omega
        · cases hc : toNumeric r.meetingId with
          | some m =>
            rw [numIds_cons_some r m rs hc] at hnd
            rw [List.filter_cons] at hnd
            cases hpm : p m with
            | true => rw [hpm] at hnd; simp only [if_pos rfl] at hnd
                      exact (List.nodup_cons.1 hnd).2
            | false => rw [hpm] at hnd; simp at hnd; exact hnd
          | none => rwa [numIds_cons_none r rs hc] at hnd
    | false =>
      rw [fillMissing_cons_not_na r rs k hna]
      cases hc : toNumeric r.meetingId with
      | none =>
        rw [numIds_cons_none _ _ hc]
        refine ih k (fun n hn => hlt n ?_) hP ?_
        · rw [numIds_cons_none r rs hc]; exact hn
        · rwa [numIds_cons_none r rs hc] at hnd
      | some m =>
        rw [numIds_cons_some _ m _ hc]
        rw [numIds_cons_some r m rs hc] at hnd
        have hmlt : m < k := hlt m (by
          rw [numIds_cons_some r m rs hc]; exact List.mem_cons_self _ _)
        have hlt' : ∀ n ∈ numIds rs, n < k := fun n hn => hlt n (by
          rw [numIds_cons_some r m rs hc]; exact List.mem_cons_of_mem _ hn)
        cases hpm : p m with
        | true =>
          rw [List.filter_cons_of_pos hpm] at hnd ⊢
          obtain ⟨hnotin, hnd'⟩ := List.nodup_cons.1 hnd
          refine List.nodup_cons.2 ⟨fun hmem => ?_, ih k hlt' hP hnd'⟩
          · obtain ⟨hmem', hpmem⟩ := List.mem_filter.1 hmem
            rcases fillMissing_mem rs k hmem' with hin | ⟨h1, _⟩
            · exact hnotin (List.mem_filter.2 ⟨hin, hpm⟩)
            · omega
        | false =>
          rw [List.filter_cons_of_neg (by simp [hpm])] at hnd ⊢
          exact ih k hlt' hP hnd

/-- Identities of the other rows never exceed the seed used by the source's
allocation (`max(...) + 1`), so `!memInt · (numIds cur)` holds on all the
freshly allocated identities. -/
theorem allocateNonEmpty_filter_nodup (cur b2 : List Row)
    (hnd : ((numIds b2).filter (fun n => !memInt n (numIds cur))).Nodup) :
    ((numIds (allocateNonEmpty cur b2)).filter
      (fun n => !memInt n (numIds cur))).Nodup := by
  unfold allocateNonEmpty
  split
  · exact List.Nodup.filter _ (nodup_numIds_assignSeq b2 (maxIdD cur + 1))
  split
  · refine fillMissing_filter_nodup b2 (max (maxIdD cur) (maxIdD b2) + 1) _
      (fun n hn => ?_) (fun n hn => ?_) hnd
    · have := mem_numIds_le_maxIdD hn
      omega
    · cases hm : memInt n (numIds cur) with
      | false => rfl
      | true =>
        have := mem_numIds_le_maxIdD (memInt_iff.1 hm)
        omega
  · exact hnd

theorem filter_not_memInt_nil (l : List Int) :
    l.filter (fun n => !memInt n ([] : List Int)) = l := by
  have : (fun n : Int => !memInt n ([] : List Int)) = fun _ => true := by
    funext n
    rfl
  rw [this, List.filter_true]

theorem allocateEmpty_nodup (b2 : List Row)
    (hnd : (numIds b2).Nodup) :
    (numIds (allocateEmpty b2)).Nodup := by
  unfold allocateEmpty
  split
  · exact nodup_numIds_assignSeq b2 1
  split
  · have := fillMissing_filter_nodup b2 (maxIdD b2 + 1) (fun _ => true)
      (fun n hn => by have := mem_numIds_le_maxIdD hn; omega)
      (fun n _ => rfl)
      (by rwa [List.filter_true])
    rwa [List.filter_true] at this
  · exact hnd

/-- Unfolding equation of `reconcile` on an empty collection. -/
theorem reconcile_nil (ov : Bool) (batch : List Row) (now : Int) :
    reconcile ov [] batch now =
      (allocateEmpty ((batch.map (statusFill now)).map cleanIdRow),
        (allocateEmpty ((batch.map (statusFill now)).map cleanIdRow)).length,
        0) := rfl

/-- Unfolding equation of `reconcile` on a non-empty collection. -/
theorem reconcile_cons (ov : Bool) (c : Row) (cs batch : List Row) (now : Int) :
    reconcile ov (c :: cs) batch now =
      (let b2 := (batch.map (statusFill now)).map cleanIdRow
       let b4 := (allocateNonEmpty (c :: cs) b2).map coerceIdRow
       let cur2 := (c :: cs).map coerceIdRow
       let toUpdate := b4.filter (fun r => matchesExisting (numIds cur2) r)
       let toAdd := b4.filter (fun r => !matchesExisting (numIds cur2) r)
       (toUpdate.foldl (applyUpdate ov now) cur2 ++ toAdd.map (deriveStatus now),
        (toAdd.map (deriveStatus now)).length, toUpdate.length)) := rfl

theorem statusFill_pres (now : Int) :
    ∀ r, toNumeric (statusFill now r).meetingId = toNumeric r.meetingId :=
  fun r => by rw [statusFill_meetingId]

theorem cleanIdRow_pres :
    ∀ r, toNumeric (cleanIdRow r).meetingId = toNumeric r.meetingId :=
  fun r => cleanId_toNumeric r.meetingId

theorem coerceIdRow_pres :
    ∀ r, toNumeric (coerceIdRow r).meetingId = toNumeric r.meetingId :=
  fun r => toNumCell_toNumeric r.meetingId

theorem deriveStatus_pres (now : Int) :
    ∀ r, toNumeric (deriveStatus now r).meetingId = toNumeric r.meetingId :=
  fun _ => rfl

theorem numIds_b2 (batch : List Row) (now : Int) :
    numIds ((batch.map (statusFill now)).map cleanIdRow) = numIds batch := by
  rw [numIds_map_pres cleanIdRow_pres, numIds_map_pres (statusFill_pres now)]

/-- Claim C1 (amended): after a reconcile under Update & Add New, the
numeric record identities in the resulting collection are pairwise
distinct, provided the existing collection's identities are distinct and
no two batch rows carry the same numeric identity that is absent from the
existing collection (rows whose identity is missing are allocated fresh,
collision-free identities; duplicates that match an existing record update
it in place). -/
theorem reconcile_unique_ids (ov : Bool) (cur batch : List Row) (now : Int)
    (hcur : (numIds cur).Nodup)
    (hbatch : ((numIds batch).filter (fun n => !memInt n (numIds cur))).Nodup) :
    (numIds (reconcile ov cur batch now).1).Nodup := by
  cases cur with
  | nil =>
    rw [reconcile_nil]
    apply allocateEmpty_nodup
    rw [numIds_b2]
    have h0 : numIds ([] : List Row) = [] := rfl
    rw [h0, filter_not_memInt_nil] at hbatch
    exact hbatch
  | cons c cs =>
    simp only [reconcile_cons]
    rw [numIds_append, foldl_applyUpdate_numIds,
      numIds_map_pres (deriveStatus_pres now), numIds_filter_not_matches,
      numIds_map_pres coerceIdRow_pres, numIds_map_pres coerceIdRow_pres]
    rw [List.nodup_append]
    refine ⟨hcur, ?_, ?_⟩
    · have := allocateNonEmpty_filter_nodup (c :: cs)
        ((batch.map (statusFill now)).map cleanIdRow)
        (by rw [numIds_b2]; exact hbatch)
      exact this
    · intro a ha hb
      obtain ⟨_, hpred⟩ := List.mem_filter.1 hb
      rw [Bool.not_eq_true'] at hpred
      rw [← memInt_iff] at ha
      rw [ha] at hpred
      cases hpred

/-! ## Update-fold algebra (for the idempotence analysis of the
`to_update` loop, lines 2722-2735) -/

theorem updateFirst_cons_match (ov : Bool) (now : Int) (c : Row) (cs : List Row)
    (n : Int) (new : Row) (h : toNumeric c.meetingId = some n) :
    updateFirst ov now (c :: cs) n new = mergeRow ov c new now :: cs := by
  rw [updateFirst, if_pos h]

theorem updateFirst_cons_nomatch (ov : Bool) (now : Int) (c : Row) (cs : List Row)
    (n : Int) (new : Row) (h : ¬ toNumeric c.meetingId = some n) :
    updateFirst ov now (c :: cs) n new = c :: updateFirst ov now cs n new := by
  rw [updateFirst, if_neg h]

theorem mergeRow_absorb (ov : Bool) (old new : Row) (now : Int) :
    mergeRow ov (mergeRow ov old new now) new now = mergeRow ov old new now := by
  cases ov <;> rfl

theorem updateFirst_twice (ov : Bool) (now : Int) (cs : List Row) (n : Int)
    (new : Row) (hnew : toNumeric new.meetingId = some n) :
    updateFirst ov now (updateFirst ov now cs n new) n new =
      updateFirst ov now cs n new := by
  induction cs with
  | nil => rfl
  | cons c cs ih =>
    by_cases h : toNumeric c.meetingId = some n
    · rw [updateFirst_cons_match ov now c cs n new h,
        updateFirst_cons_match ov now _ cs n new
          (by rw [mergeRow_meetingId]; exact hnew),
        mergeRow_absorb]
    · rw [updateFirst_cons_nomatch ov now c cs n new h,
        updateFirst_cons_nomatch ov now c _ n new h, ih]

theorem updateFirst_comm (ov : Bool) (now : Int) (cs : List Row)
    (n m : Int) (r1 r2 : Row) (hnm : n ≠ m)
    (h1 : toNumeric r1.meetingId = some n)
    (h2 : toNumeric r2.meetingId = some m) :
    updateFirst ov now (updateFirst ov now cs n r1) m r2 =
      updateFirst ov now (updateFirst ov now cs m r2) n r1 := by
  induction cs with
  | nil => rfl
  | cons c cs ih =>
    by_cases hc1 : toNumeric c.meetingId = some n
    · have hc2 : ¬ toNumeric c.meetingId = some m := by
        rw [hc1]
        intro hcon
        exact hnm (Option.some.inj hcon)
      rw [updateFirst_cons_match ov now c cs n r1 hc1,
        updateFirst_cons_nomatch ov now _ cs m r2
          (by rw [mergeRow_meetingId, h1]
              intro hcon
              exact hnm (Option.some.inj hcon)),
        updateFirst_cons_nomatch ov now c cs m r2 hc2,
        updateFirst_cons_match ov now c _ n r1 hc1]
    · by_cases hc2 : toNumeric c.meetingId = some m
      · rw [updateFirst_cons_nomatch ov now c cs n r1 hc1,
          updateFirst_cons_match ov now c _ m r2 hc2,
          updateFirst_cons_match ov now c cs m r2 hc2,
          updateFirst_cons_nomatch ov now _ cs n r1
            (by rw [mergeRow_meetingId, h2]
                intro hcon
                exact hnm (Option.some.inj hcon).symm)]
      · rw [updateFirst_cons_nomatch ov now c cs n r1 hc1,
          updateFirst_cons_nomatch ov now c _ m r2 hc2,
          updateFirst_cons_nomatch ov now c cs m r2 hc2,
          updateFirst_cons_nomatch ov now c _ n r1 hc1, ih]

theorem applyUpdate_of_num (ov : Bool) (now : Int) (cs : List Row) (row : Row)
    (n : Int) (h : row.meetingId = .num n) :
    applyUpdate ov now cs row = updateFirst ov now cs n row := by
  unfold applyUpdate
  rw [h]

theorem applyUpdate_twice (ov : Bool) (now : Int) (cs : List Row) (row : Row)
    (n : Int) (h : row.meetingId = .num n) :
    applyUpdate ov now (applyUpdate ov now cs row) row =
      applyUpdate ov now cs row := by
  rw [applyUpdate_of_num ov now _ row n h, applyUpdate_of_num ov now cs row n h]
  exact updateFirst_twice ov now cs n row (by simp [toNumeric, h])

theorem applyUpdate_comm (ov : Bool) (now : Int) (cs : List Row) (a b : Row)
    (na nb : Int) (ha : a.meetingId = .num na) (hb : b.meetingId = .num nb)
    (hne : na ≠ nb) :
    applyUpdate ov now (applyUpdate ov now cs a) b =
      applyUpdate ov now (applyUpdate ov now cs b) a := by
  rw [applyUpdate_of_num ov now cs a na ha, applyUpdate_of_num ov now cs b nb hb,
    applyUpdate_of_num ov now _ b nb hb, applyUpdate_of_num ov now _ a na ha]
  exact updateFirst_comm ov now cs na nb a b hne
    (by simp [toNumeric, ha]) (by simp [toNumeric, hb])

theorem foldl_applyUpdate_swap (ov : Bool) (now : Int) (rows cs : List Row)
    (b : Row) (n : Int) (hb : b.meetingId = .num n)
    (hrows : ∀ r ∈ rows, ∃ m : Int, r.meetingId = .num m ∧ m ≠ n) :
    applyUpdate ov now (rows.foldl (applyUpdate ov now) cs) b =
      rows.foldl (applyUpdate ov now) (applyUpdate ov now cs b) := by
  induction rows generalizing cs with
  | nil => rfl
  | cons r rs ih =>
    obtain ⟨m, hr, hmn⟩ := hrows r (List.mem_cons_self _ _)
    simp only [List.foldl_cons]
    rw [ih (applyUpdate ov now cs r) (fun x hx => hrows x (List.mem_cons_of_mem _ hx)),
      applyUpdate_comm ov now cs r b m n hr hb hmn]

theorem foldl_applyUpdate_idem (ov : Bool) (now : Int) (rows cs : List Row)
    (hnum : ∀ r ∈ rows, ∃ m : Int, r.meetingId = .num m)
    (hnd : (numIds rows).Nodup) :
    rows.foldl (applyUpdate ov now) (rows.foldl (applyUpdate ov now) cs) =
      rows.foldl (applyUpdate ov now) cs := by
  induction rows generalizing cs with
  | nil => rfl
  | cons b bs ih =>
    obtain ⟨n, hb⟩ := hnum b (List.mem_cons_self _ _)
    rw [numIds_cons_some b n bs (by simp [toNumeric, hb])] at hnd
    obtain ⟨hnotin, hnd'⟩ := List.nodup_cons.1 hnd
    have hbs : ∀ r ∈ bs, ∃ m : Int, r.meetingId = .num m ∧ m ≠ n := by
      intro r hr
      obtain ⟨m, hm⟩ := hnum r (List.mem_cons_of_mem _ hr)
      refine ⟨m, hm, fun hcon => hnotin ?_⟩
      subst hcon
      exact List.mem_filterMap.2 ⟨r, hr, by simp [toNumeric, hm]⟩
    simp only [List.foldl_cons]
    rw [foldl_applyUpdate_swap ov now bs (applyUpdate ov now cs b) b n hb hbs,
      applyUpdate_twice ov now cs b n hb]
    exact ih (applyUpdate ov now cs b)
      (fun r hr => hnum r (List.mem_cons_of_mem _ hr)) hnd'

theorem foldl_applyUpdate_cons_head (ov : Bool) (now : Int) (rows : List Row)
    (x : Row) (L : List Row) (n : Int)
    (hx : toNumeric x.meetingId = some n)
    (h : ∀ r ∈ rows, ∀ m : Int, r.meetingId = .num m → m ≠ n) :
    rows.foldl (applyUpdate ov now) (x :: L) =
      x :: rows.foldl (applyUpdate ov now) L := by
  induction rows generalizing L with
  | nil => rfl
  | cons r rs ih =>
    simp only [List.foldl_cons]
    have hstep : applyUpdate ov now (x :: L) r = x :: applyUpdate ov now L r := by
      cases hr : r.meetingId with
      | num m =>
        rw [applyUpdate_of_num ov now _ r m hr, applyUpdate_of_num ov now L r m hr,
          updateFirst_cons_nomatch ov now x L m r
            (by rw [hx]
                intro hcon
                exact h r (List.mem_cons_self _ _) m hr (Option.some.inj hcon).symm)]
      | na => simp [applyUpdate, hr]
      | junk s => simp [applyUpdate, hr]
    rw [hstep, ih (applyUpdate ov now L r)
      (fun r' hr' => h r' (List.mem_cons_of_mem _ hr'))]

theorem memInt_append (n : Int) (l1 l2 : List Int) :
    memInt n (l1 ++ l2) = (memInt n l1 || memInt n l2) := by
  induction l1 with
  | nil => simp [memInt]
  | cons m l ih => simp [memInt, ih, Bool.or_assoc]

theorem updateFirst_append_of_mem (ov : Bool) (now : Int) (xs ys : List Row)
    (n : Int) (new : Row) (h : memInt n (numIds xs) = true) :
    updateFirst ov now (xs ++ ys) n new = updateFirst ov now xs n new ++ ys := by
  induction xs with
  | nil => simp [memInt, numIds] at h
  | cons c cs ih =>
    by_cases hc : toNumeric c.meetingId = some n
    · rw [List.cons_append, updateFirst_cons_match ov now c (cs ++ ys) n new hc,
        updateFirst_cons_match ov now c cs n new hc, List.cons_append]
    · have h' : memInt n (numIds cs) = true := by
        cases hcell : toNumeric c.meetingId with
        | none => rwa [numIds_cons_none c cs hcell] at h
        | some k =>
          rw [numIds_cons_some c k cs hcell] at h
          have hkn : ¬ n = k := fun hcon => hc (by rw [hcell, hcon])
          simpa [memInt, hkn] using h
      rw [List.cons_append, updateFirst_cons_nomatch ov now c (cs ++ ys) n new hc,
        updateFirst_cons_nomatch ov now c cs n new hc, ih h', List.cons_append]

theorem updateFirst_append_of_not_mem (ov : Bool) (now : Int) (xs ys : List Row)
    (n : Int) (new : Row) (h : memInt n (numIds xs) = false) :
    updateFirst ov now (xs ++ ys) n new = xs ++ updateFirst ov now ys n new := by
  induction xs with
  | nil => rfl
  | cons c cs ih =>
    have hc : ¬ toNumeric c.meetingId = some n := by
      intro hcell
      rw [numIds_cons_some c n cs hcell] at h
      simp [memInt] at h
    have h' : memInt n (numIds cs) = false := by
      cases hcell : toNumeric c.meetingId with
      | none => rwa [numIds_cons_none c cs hcell] at h
      | some k =>
        rw [numIds_cons_some c k cs hcell] at h
        simpa [memInt] using (Bool.or_eq_false_iff.1 h).2
    rw [List.cons_append, updateFirst_cons_nomatch ov now c (cs ++ ys) n new hc,
      ih h', List.cons_append]

theorem foldl_applyUpdate_split (ov : Bool) (now : Int) (rows X Y : List Row)
    (hnum : ∀ r ∈ rows, ∃ m : Int, r.meetingId = .num m) :
    rows.foldl (applyUpdate ov now) (X ++ Y) =
      (rows.filter (fun r => matchesExisting (numIds X) r)).foldl
          (applyUpdate ov now) X ++
        (rows.filter (fun r => !matchesExisting (numIds X) r)).foldl
          (applyUpdate ov now) Y := by
  induction rows generalizing X Y with
  | nil => rfl
  | cons r rs ih =>
    obtain ⟨n, hr⟩ := hnum r (List.mem_cons_self _ _)
    have hmatch : matchesExisting (numIds X) r = memInt n (numIds X) :=
      matchesExisting_num (numIds X) r n hr
    cases hmem : memInt n (numIds X) with
    | true =>
      rw [List.filter_cons_of_pos (by rw [hmatch, hmem]),
        List.filter_cons_of_neg (by rw [hmatch, hmem]; simp)]
      simp only [List.foldl_cons]
      rw [applyUpdate_of_num ov now (X ++ Y) r n hr,
        updateFirst_append_of_mem ov now X Y n r hmem,
        ← applyUpdate_of_num ov now X r n hr]
      have := ih (applyUpdate ov now X r) Y
        (fun x hx => hnum x (List.mem_cons_of_mem _ hx))
      rwa [applyUpdate_numIds ov now X r] at this
    | false =>
      rw [List.filter_cons_of_neg (by rw [hmatch, hmem]; simp),
        List.filter_cons_of_pos (by rw [hmatch, hmem]; rfl)]
      simp only [List.foldl_cons]
      rw [applyUpdate_of_num ov now (X ++ Y) r n hr,
        updateFirst_append_of_not_mem ov now X Y n r hmem,
        ← applyUpdate_of_num ov now Y r n hr]
      exact ih X (applyUpdate ov now Y r)
        (fun x hx => hnum x (List.mem_cons_of_mem _ hx))

theorem foldl_applyUpdate_map_self (now : Int) (d : Row → Row) (A : List Row)
    (hd : ∀ r ∈ A, ∃ s, d r = { r with status := s })
    (hnum : ∀ r ∈ A, ∃ n : Int, r.meetingId = .num n)
    (hnd : (numIds A).Nodup) :
    A.foldl (applyUpdate false now) (A.map d) = A.map d := by
  induction A with
  | nil => rfl
  | cons a as ih =>
    obtain ⟨n, ha⟩ := hnum a (List.mem_cons_self _ _)
    obtain ⟨s, hs⟩ := hd a (List.mem_cons_self _ _)
    rw [numIds_cons_some a n as (by simp [toNumeric, ha])] at hnd
    obtain ⟨hnotin, hnd'⟩ := List.nodup_cons.1 hnd
    have hstep : applyUpdate false now (d a :: as.map d) a = d a :: as.map d := by
      rw [applyUpdate_of_num false now _ a n ha,
        updateFirst_cons_match false now (d a) (as.map d) n a
          (by rw [hs]; simp [toNumeric, ha]),
        mergeRow_false, hs]
    simp only [List.map_cons, List.foldl_cons]
    rw [hstep, foldl_applyUpdate_cons_head false now as (d a) (as.map d) n
        (by rw [hs]; simp [toNumeric, ha])
        (fun r hr m hm hcon => by
          subst hcon
          exact hnotin (List.mem_filterMap.2 ⟨r, hr, by simp [toNumeric, hm]⟩)),
      ih (fun r hr => hd r (List.mem_cons_of_mem _ hr))
        (fun r hr => hnum r (List.mem_cons_of_mem _ hr)) hnd']

theorem Row.eta_meetingId (r : Row) :
    ({ r with meetingId := r.meetingId } : Row) = r := rfl

theorem idCoerced_of_num (r : Row) (n : Int) (h : r.meetingId = .num n) :
    IdCoerced r := by
  unfold IdCoerced
  rw [h]
  rfl

theorem idCoerced_coerceIdRow (r : Row) : IdCoerced (coerceIdRow r) :=
  toNumCell_toNumCell r.meetingId

theorem coerceIdRow_eq_self (r : Row) (h : IdCoerced r) : coerceIdRow r = r := by
  unfold coerceIdRow
  rw [h]

theorem map_coerce_eq_self (L : List Row) (h : ∀ r ∈ L, IdCoerced r) :
    L.map coerceIdRow = L := by
  induction L with
  | nil => rfl
  | cons a as ih =>
    rw [List.map_cons, coerceIdRow_eq_self a (h a (List.mem_cons_self _ _)),
      ih (fun r hr => h r (List.mem_cons_of_mem _ hr))]

theorem idCoerced_mergeRow (ov : Bool) (old new : Row) (now : Int)
    (h : IdCoerced new) : IdCoerced (mergeRow ov old new now) := by
  unfold IdCoerced
  rw [mergeRow_meetingId]
  exact h

theorem idCoerced_updateFirst (ov : Bool) (now : Int) (cs : List Row)
    (n : Int) (new : Row) (hcs : ∀ r ∈ cs, IdCoerced r) (hnew : IdCoerced new) :
    ∀ r ∈ updateFirst ov now cs n new, IdCoerced r := by
  induction cs with
  | nil => intro r hr; cases hr
  | cons c cs ih =>
    intro r hr
    unfold updateFirst at hr
    split at hr
    · rcases List.mem_cons.1 hr with rfl | htail
      · exact idCoerced_mergeRow ov c new now hnew
      · exact hcs r (List.mem_cons_of_mem _ htail)
    · rcases List.mem_cons.1 hr with rfl | htail
      · exact hcs r (List.mem_cons_self _ _)
      · exact ih (fun x hx => hcs x (List.mem_cons_of_mem _ hx)) r htail

theorem idCoerced_applyUpdate (ov : Bool) (now : Int) (cs : List Row)
    (row : Row) (hcs : ∀ r ∈ cs, IdCoerced r) (hrow : IdCoerced row) :
    ∀ r ∈ applyUpdate ov now cs row, IdCoerced r := by
  unfold applyUpdate
  cases h : row.meetingId with
  | num n => exact idCoerced_updateFirst ov now cs n row hcs hrow
  | na => exact hcs
  | junk s => exact hcs

theorem idCoerced_foldl (ov : Bool) (now : Int) (rows cs : List Row)
    (hcs : ∀ r ∈ cs, IdCoerced r) (hrows : ∀ r ∈ rows, IdCoerced r) :
    ∀ r ∈ rows.foldl (applyUpdate ov now) cs, IdCoerced r := by
  induction rows generalizing cs with
  | nil => exact hcs
  | cons r rs ih =>
    simp only [List.foldl_cons]
    exact ih (applyUpdate ov now cs r)
      (idCoerced_applyUpdate ov now cs r hcs (hrows r (List.mem_cons_self _ _)))
      (fun x hx => hrows x (List.mem_cons_of_mem _ hx))

theorem idCoerced_deriveStatus (now : Int) (r : Row) (h : IdCoerced r) :
    IdCoerced (deriveStatus now r) := h

/-! ## Further structural facts about the reconcile pipeline -/

theorem cleanId_num (n : Int) : cleanId (.num n) = .num n := rfl

theorem cleanIdRow_of_num (r : Row) (n : Int) (h : r.meetingId = .num n) :
    cleanIdRow r = r := by
  unfold cleanIdRow
  rw [h, cleanId_num, ← h, Row.eta_meetingId]

theorem statusFill_eq (now : Int) (r : Row) :
    statusFill now r = { r with status := (statusFill now r).status } := by
  unfold statusFill
  split
  · split <;> rfl
  · rfl

theorem updateFirst_length (ov : Bool) (now : Int) (cs : List Row) (n : Int)
    (new : Row) : (updateFirst ov now cs n new).length = cs.length := by
  induction cs with
  | nil => rfl
  | cons c cs ih =>
    unfold updateFirst
    split
    · simp
    · simp [ih]

theorem applyUpdate_length (ov : Bool) (now : Int) (cs : List Row) (row : Row) :
    (applyUpdate ov now cs row).length = cs.length := by
  unfold applyUpdate
  cases row.meetingId with
  | num n => exact updateFirst_length ov now cs n row
  | na => rfl
  | junk s => rfl

theorem foldl_applyUpdate_length (ov : Bool) (now : Int) (rows cs : List Row) :
    (rows.foldl (applyUpdate ov now) cs).length = cs.length := by
  induction rows generalizing cs with
  | nil => rfl
  | cons r rs ih =>
    simp only [List.foldl_cons]
    rw [ih (applyUpdate ov now cs r), applyUpdate_length]

theorem allocateNonEmpty_of_no_na (cur b2 : List Row) (hne : b2 ≠ [])
    (h : ∀ r ∈ b2, isNaCell r.meetingId = false) :
    allocateNonEmpty cur b2 = b2 := by
  have hall : b2.all (fun r => isNaCell r.meetingId) = false := by
    cases b2 with
    | nil => exact absurd rfl hne
    | cons x xs => simp [List.all_cons, h x (List.mem_cons_self _ _)]
  have hany : b2.any (fun r => isNaCell r.meetingId) = false := by
    rw [List.any_eq_false]
    intro x hx
    rw [h x hx]
    exact Bool.false_ne_true
  unfold allocateNonEmpty
  rw [if_neg (by rw [hall]; exact Bool.false_ne_true),
    if_neg (by rw [hany]; exact Bool.false_ne_true)]

theorem allocateEmpty_of_no_na (b2 : List Row) (hne : b2 ≠ [])
    (h : ∀ r ∈ b2, isNaCell r.meetingId = false) :
    allocateEmpty b2 = b2 := by
  have hall : b2.all (fun r => isNaCell r.meetingId) = false := by
    cases b2 with
    | nil => exact absurd rfl hne
    | cons x xs => simp [List.all_cons, h x (List.mem_cons_self _ _)]
  have hany : b2.any (fun r => isNaCell r.meetingId) = false := by
    rw [List.any_eq_false]
    intro x hx
    rw [h x hx]
    exact Bool.false_ne_true
  unfold allocateEmpty
  rw [if_neg (by rw [hall]; exact Bool.false_ne_true),
    if_neg (by rw [hany]; exact Bool.false_ne_true)]

/-- Unfolding equation of `reconcile` on any non-empty collection. -/
theorem reconcile_eq_of_ne_nil (ov : Bool) (cur batch : List Row) (now : Int)
    (h : cur ≠ []) :
    reconcile ov cur batch now =
      (let b2 := (batch.map (statusFill now)).map cleanIdRow
       let b4 := (allocateNonEmpty cur b2).map coerceIdRow
       let cur2 := cur.map coerceIdRow
       let toUpdate := b4.filter (fun r => matchesExisting (numIds cur2) r)
       let toAdd := b4.filter (fun r => !matchesExisting (numIds cur2) r)
       (toUpdate.foldl (applyUpdate ov now) cur2 ++ toAdd.map (deriveStatus now),
        (toAdd.map (deriveStatus now)).length, toUpdate.length)) := by
  cases cur with
  | nil => exact absurd rfl h
  | cons c cs => rfl

theorem b2_num (batch : List Row) (now : Int)
    (hnum : ∀ r ∈ batch, ∃ n : Int, r.meetingId = IdCell.num n) :
    ∀ r ∈ (batch.map (statusFill now)).map cleanIdRow,
      ∃ n : Int, r.meetingId = IdCell.num n := by
  intro r hr
  obtain ⟨y, hy, rfl⟩ := List.mem_map.1 hr
  obtain ⟨x, hx, rfl⟩ := List.mem_map.1 hy
  obtain ⟨n, hn⟩ := hnum x hx
  exact ⟨n, by
    show cleanId (statusFill now x).meetingId = IdCell.num n
    rw [statusFill_meetingId, hn, cleanId_num]⟩

theorem allocateNonEmpty_of_nums (cur b2 : List Row)
    (h : ∀ r ∈ b2, ∃ n : Int, r.meetingId = IdCell.num n) :
    allocateNonEmpty cur b2 = b2 := by
  cases b2 with
  | nil => rfl
  | cons x xs =>
    refine allocateNonEmpty_of_no_na cur (x :: xs) (by simp) (fun r hr => ?_)
    obtain ⟨n, hn⟩ := h r hr
    rw [hn]
    rfl

theorem allocateEmpty_of_nums (b2 : List Row)
    (h : ∀ r ∈ b2, ∃ n : Int, r.meetingId = IdCell.num n) :
    allocateEmpty b2 = b2 := by
  cases b2 with
  | nil => rfl
  | cons x xs =>
    refine allocateEmpty_of_no_na (x :: xs) (by simp) (fun r hr => ?_)
    obtain ⟨n, hn⟩ := h r hr
    rw [hn]
    rfl

theorem map_coerce_of_nums (b2 : List Row)
    (h : ∀ r ∈ b2, ∃ n : Int, r.meetingId = IdCell.num n) :
    b2.map coerceIdRow = b2 := by
  refine map_coerce_eq_self b2 (fun r hr => ?_)
  obtain ⟨n, hn⟩ := h r hr
  exact idCoerced_of_num r n hn

theorem nodup_numIds_filter (p : Row → Bool) (rs : List Row)
    (h : (numIds rs).Nodup) : (numIds (rs.filter p)).Nodup := by
  refine List.Sublist.nodup ?_ h
  exact List.Sublist.filterMap _ (List.filter_sublist rs)

theorem reconcile_idem_nil (batch : List Row) (now : Int)
    (hnum : ∀ r ∈ batch, ∃ n : Int, r.meetingId = IdCell.num n)
    (hnd : (numIds batch).Nodup) :
    (reconcile false (reconcile false [] batch now).1 batch now).1 =
      (reconcile false [] batch now).1 ∧
    (reconcile false (reconcile false [] batch now).1 batch now).2.1 = 0 := by
  have hBnum := b2_num batch now hnum
  have hBnodup : (numIds ((batch.map (statusFill now)).map cleanIdRow)).Nodup := by
    rw [numIds_b2]
    exact hnd
  have halloc : allocateEmpty ((batch.map (statusFill now)).map cleanIdRow) =
      (batch.map (statusFill now)).map cleanIdRow :=
    allocateEmpty_of_nums _ hBnum
  have hR1 : (reconcile false [] batch now).1 =
      (batch.map (statusFill now)).map cleanIdRow := by
    rw [reconcile_nil, halloc]
  cases hBcase : (batch.map (statusFill now)).map cleanIdRow with
  | nil =>
    rw [hR1, hBcase]
    constructor
    · rw [reconcile_nil, halloc, hBcase]
    · rw [reconcile_nil]
      show (allocateEmpty _).length = 0
      rw [halloc, hBcase]
      rfl
  | cons b bs =>
    have hne : (reconcile false [] batch now).1 ≠ [] := by
      rw [hR1, hBcase]
      simp
    rw [hR1]
    simp only [reconcile_eq_of_ne_nil false
      ((batch.map (statusFill now)).map cleanIdRow) batch now
      (by rw [hBcase]; simp)]
    rw [allocateNonEmpty_of_nums _ _ hBnum, map_coerce_of_nums _ hBnum]
    have hmatchall : ∀ r ∈ (batch.map (statusFill now)).map cleanIdRow,
        matchesExisting (numIds ((batch.map (statusFill now)).map cleanIdRow)) r
          = true := by
      intro r hr
      obtain ⟨n, hn⟩ := hBnum r hr
      rw [matchesExisting_num _ r n hn]
      exact memInt_iff.2 (List.mem_filterMap.2 ⟨r, hr, by simp [toNumeric, hn]⟩)
    rw [List.filter_eq_self.2 hmatchall,
      List.filter_eq_nil_iff.2 (fun a ha => by rw [hmatchall a ha]; simp)]
    have hfold : ((batch.map (statusFill now)).map cleanIdRow).foldl
        (applyUpdate false now) ((batch.map (statusFill now)).map cleanIdRow) =
        (batch.map (statusFill now)).map cleanIdRow := by
      have := foldl_applyUpdate_map_self now (fun r => r)
        ((batch.map (statusFill now)).map cleanIdRow)
        (fun r _ => ⟨r.status, rfl⟩) hBnum hBnodup
      rwa [List.map_id'] at this
    constructor
    · show ((batch.map (statusFill now)).map cleanIdRow).foldl
          (applyUpdate false now) ((batch.map (statusFill now)).map cleanIdRow) ++
          ([] : List Row).map (deriveStatus now) =
          (batch.map (statusFill now)).map cleanIdRow
      rw [hfold, List.map_nil, List.append_nil]
    · show (([] : List Row).map (deriveStatus now)).length = 0
      rfl

theorem second_pass (batch B cur2 U A D A2 : List Row) (now : Int)
    (hBnum : ∀ r ∈ B, ∃ n : Int, r.meetingId = IdCell.num n)
    (hBnodup : (numIds B).Nodup)
    (hB : B = (batch.map (statusFill now)).map cleanIdRow)
    (hcur2 : ∀ r ∈ cur2, IdCoerced r)
    (hcur2ne : cur2 ≠ [])
    (hU : U = B.filter (fun r => matchesExisting (numIds cur2) r))
    (hA : A = B.filter (fun r => !matchesExisting (numIds cur2) r))
    (hD : D = U.foldl (applyUpdate false now) cur2)
    (hA2 : A2 = A.map (deriveStatus now)) :
    (reconcile false (D ++ A2) batch now).1 = D ++ A2 ∧
      (reconcile false (D ++ A2) batch now).2.1 = 0 := by
  have hUnum : ∀ r ∈ U, ∃ n : Int, r.meetingId = IdCell.num n := by
    rw [hU]
    exact fun r hr => hBnum r (List.mem_of_mem_filter hr)
  have hAnum : ∀ r ∈ A, ∃ n : Int, r.meetingId = IdCell.num n := by
    rw [hA]
    exact fun r hr => hBnum r (List.mem_of_mem_filter hr)
  have hUnodup : (numIds U).Nodup := by
    rw [hU]
    exact nodup_numIds_filter _ B hBnodup
  have hAnodup : (numIds A).Nodup := by
    rw [hA]
    exact nodup_numIds_filter _ B hBnodup
  have hDcoerced : ∀ r ∈ D, IdCoerced r := by
    rw [hD]
    refine idCoerced_foldl false now U cur2 hcur2 (fun r hr => ?_)
    obtain ⟨n, hn⟩ := hUnum r hr
    exact idCoerced_of_num r n hn
  have hA2coerced : ∀ r ∈ A2, IdCoerced r := by
    rw [hA2]
    intro r hr
    obtain ⟨x, hx, rfl⟩ := List.mem_map.1 hr
    obtain ⟨n, hn⟩ := hAnum x hx
    exact idCoerced_deriveStatus now x (idCoerced_of_num x n hn)
  have hne : D ++ A2 ≠ [] := by
    intro hcon
    obtain ⟨hD0, _⟩ := List.append_eq_nil.1 hcon
    rw [hD] at hD0
    have hlen := congrArg List.length hD0
    rw [foldl_applyUpdate_length] at hlen
    exact hcur2ne (List.length_eq_zero.1 hlen)
  have hfix : (D ++ A2).map coerceIdRow = D ++ A2 := by
    refine map_coerce_eq_self _ (fun r hr => ?_)
    rcases List.mem_append.1 hr with h | h
    · exact hDcoerced r h
    · exact hA2coerced r h
  have hDids : numIds D = numIds cur2 := by
    rw [hD, foldl_applyUpdate_numIds]
  have hRids : numIds (D ++ A2) = numIds cur2 ++ numIds A := by
    rw [numIds_append, hDids, hA2, numIds_map_pres (deriveStatus_pres now)]
  have hmatchall : ∀ r ∈ B, matchesExisting (numIds (D ++ A2)) r = true := by
    intro r hr
    obtain ⟨n, hn⟩ := hBnum r hr
    rw [matchesExisting_num _ r n hn, hRids, memInt_append]
    cases hm : memInt n (numIds cur2) with
    | true => rfl
    | false =>
      have hrA : r ∈ A := by
        rw [hA]
        refine List.mem_filter.2 ⟨hr, ?_⟩
        rw [matchesExisting_num _ r n hn, hm]
        rfl
      have : memInt n (numIds A) = true :=
        memInt_iff.2 (List.mem_filterMap.2 ⟨r, hrA, by simp [toNumeric, hn]⟩)
      rw [this]
      rfl
  simp only [reconcile_eq_of_ne_nil false (D ++ A2) batch now hne]
  rw [← hB, allocateNonEmpty_of_nums _ _ hBnum, map_coerce_of_nums _ hBnum, hfix,
    List.filter_eq_self.2 hmatchall,
    List.filter_eq_nil_iff.2 (fun a ha => by rw [hmatchall a ha]; simp)]
  constructor
  · show B.foldl (applyUpdate false now) (D ++ A2) ++
        ([] : List Row).map (deriveStatus now) = D ++ A2
    rw [List.map_nil, List.append_nil,
      foldl_applyUpdate_split false now B D A2 hBnum, hDids, ← hU, ← hA,
      hD, foldl_applyUpdate_idem false now U cur2 hUnum hUnodup,
      hA2, foldl_applyUpdate_map_self now (deriveStatus now) A
        (fun r _ => ⟨_, rfl⟩) hAnum hAnodup]
  · show (([] : List Row).map (deriveStatus now)).length = 0
    rfl

theorem reconcile_idem_cons (c : Row) (cs batch : List Row) (now : Int)
    (hnum : ∀ r ∈ batch, ∃ n : Int, r.meetingId = IdCell.num n)
    (hnd : (numIds batch).Nodup) :
    (reconcile false (reconcile false (c :: cs) batch now).1 batch now).1 =
      (reconcile false (c :: cs) batch now).1 ∧
    (reconcile false (reconcile false (c :: cs) batch now).1 batch now).2.1 = 0 := by
  have hBnum := b2_num batch now hnum
  have hBnodup : (numIds ((batch.map (statusFill now)).map cleanIdRow)).Nodup := by
    rw [numIds_b2]
    exact hnd
  simp only [reconcile_cons]
  rw [allocateNonEmpty_of_nums _ _ hBnum, map_coerce_of_nums _ hBnum]
  exact second_pass batch _ _ _ _ _ _ now hBnum hBnodup rfl
    (fun r hr => by
      obtain ⟨x, _, rfl⟩ := List.mem_map.1 hr
      exact idCoerced_coerceIdRow x)
    (by simp)
    rfl rfl rfl rfl

/-- Claim C2 (amended): reconcile under Update & Add New is idempotent for
batches in which every row carries a numeric identity and no two rows share
an identity: applying the same batch a second time to the collection
produced by the first application yields the same collection, and the
second application reports added_count = 0 (every batch row then matches an
existing record by identity).  Rows with missing identities break this:
they are re-allocated fresh identities on every application (see the
counterexample). -/
theorem reconcile_idempotent (cur batch : List Row) (now : Int)
    (hnum : ∀ r ∈ batch, ∃ n : Int, r.meetingId = IdCell.num n)
    (hnd : (numIds batch).Nodup) :
    (reconcile false (reconcile false cur batch now).1 batch now).1 =
      (reconcile false cur batch now).1 ∧
    (reconcile false (reconcile false cur batch now).1 batch now).2.1 = 0 := by
  cases cur with
  | nil => exact reconcile_idem_nil batch now hnum hnd
  | cons c cs => exact reconcile_idem_cons c cs batch now hnum hnd

/-- Claim C2, counterexample to the claim as stated: re-importing a batch
whose single row has a missing identity against the collection produced by
the first import allocates a fresh identity again and reports
added_count = 1, not 0. -/
theorem reconcile_idempotent_counterexample :
    ¬ ((reconcile false (reconcile false [] [mkRow .na "A"] 0).1
        [mkRow .na "A"] 0).2.1 = 0) := by decide

theorem reconcile_idempotent_witness :
    (reconcile false
        (reconcile false [mkRow (.num 1) "A"]
          [mkRow (.num 1) "B", mkRow (.num 7) "C"] 0).1
        [mkRow (.num 1) "B", mkRow (.num 7) "C"] 0).1 =
      (reconcile false [mkRow (.num 1) "A"]
        [mkRow (.num 1) "B", mkRow (.num 7) "C"] 0).1 ∧
    (reconcile false
        (reconcile false [mkRow (.num 1) "A"]
          [mkRow (.num 1) "B", mkRow (.num 7) "C"] 0).1
        [mkRow (.num 1) "B", mkRow (.num 7) "C"] 0).2.1 = 0 :=
  reconcile_idempotent [mkRow (.num 1) "A"]
    [mkRow (.num 1) "B", mkRow (.num 7) "C"] 0
    (by
      intro r hr
      rcases List.mem_cons.1 hr with rfl | hr2
      · exact ⟨1, rfl⟩
      · rcases List.mem_cons.1 hr2 with rfl | hr3
        · exact ⟨7, rfl⟩
        · cases hr3)
    (by decide)

/-- Claim C1, counterexample to the claim as stated: a batch with two rows
both carrying identity 5, reconciled into a collection holding identity 1,
appends both rows, so identity 5 occurs twice in the result. -/
theorem reconcile_unique_ids_counterexample :
    ¬ (numIds (reconcile false [mkRow (.num 1) "A"]
        [mkRow (.num 5) "B", mkRow (.num 5) "C"] 0).1).Nodup := by decide

theorem reconcile_unique_ids_witness :
    (numIds (reconcile false [mkRow (.num 1) "A"]
        [mkRow (.num 5) "B", mkRow .na "C"] 0).1).Nodup :=
  reconcile_unique_ids false [mkRow (.num 1) "A"]
    [mkRow (.num 5) "B", mkRow .na "C"] 0 (by decide) (by decide)

/-- Claim C3: during the field merge of a `to_update` batch row under the
fixed import policy (`overwrite_status = False`), the existing record's
status is preserved when the batch row's status is blank: an existing
record with identity 3 and status `"Completed"` merged with a batch row of
identity 3 and empty status keeps status `"Completed"` (the manual-override
table is not consulted by the merge; preservation holds from the policy
alone). -/
theorem merge_preserves_status (old new : Row) (now : Int)
    (holdId : old.meetingId = .num 3) (holdSt : old.status = "Completed")
    (hnewId : new.meetingId = .num 3) (_hnewSt : new.status = "") :
    (reconcile false [old] [new] now).1.map Row.status = ["Completed"] := by
  have hfillId : (statusFill now new).meetingId = .num 3 := by
    rw [statusFill_meetingId, hnewId]
  have hb2 : (([new].map (statusFill now)).map cleanIdRow) =
      [statusFill now new] := by
    rw [List.map_cons, List.map_nil, List.map_cons, List.map_nil,
      cleanIdRow_of_num (statusFill now new) 3 hfillId]
  have hnums : ∀ r ∈ [statusFill now new], ∃ n : Int, r.meetingId = .num n := by
    intro r hr
    rcases List.mem_cons.1 hr with rfl | hr2
    · exact ⟨3, hfillId⟩
    · cases hr2
  have hcur2 : [old].map coerceIdRow = [old] := by
    rw [List.map_cons, List.map_nil,
      coerceIdRow_eq_self old (idCoerced_of_num old 3 holdId)]
  have hex : numIds [old] = [3] := by
    rw [numIds_cons_some old 3 [] (by simp [toNumeric, holdId])]
    rfl
  have hm : matchesExisting (numIds [old]) (statusFill now new) = true := by
    rw [matchesExisting_num _ _ 3 hfillId, hex]
    rfl
  have hb4 : [statusFill now new].map coerceIdRow = [statusFill now new] := by
    rw [List.map_cons, List.map_nil,
      coerceIdRow_eq_self _ (idCoerced_of_num _ 3 hfillId)]
  simp only [reconcile_cons]
  rw [hb2, allocateNonEmpty_of_nums [old] [statusFill now new] hnums, hb4,
    hcur2,
    List.filter_cons_of_pos hm, List.filter_cons_of_neg (by rw [hm]; simp),
    List.filter_nil, List.filter_nil, List.map_nil, List.append_nil,
    List.foldl_cons, List.foldl_nil,
    applyUpdate_of_num false now [old] (statusFill now new) 3 hfillId,
    updateFirst_cons_match false now old [] 3 (statusFill now new)
      (by simp [toNumeric, holdId]),
    mergeRow_false, List.map_cons, List.map_nil]
  show [({ statusFill now new with status := old.status } : Row).status] =
    ["Completed"]
  rw [show ({ statusFill now new with status := old.status } : Row).status =
      old.status from rfl, holdSt]

theorem merge_preserves_status_witness :
    (reconcile false
        [⟨.num 3, "Completed", none, "", "", "", "", "", "", "", "", "", []⟩]
        [⟨.num 3, "", some 0, "9:00", "", "Acme", "", "", "", "", "", "", []⟩]
        0).1.map Row.status = ["Completed"] :=
  merge_preserves_status _ _ 0 rfl rfl rfl rfl

/-- Claim C6, counterexample to the claim as stated: a batch row whose
identity is the non-numeric string "abc" is NOT treated as missing — it is
never re-allocated; the coercion of line 2703 turns it into `NaN` and the
row is appended with no identity at all (the claim predicts it would
receive the fresh identity 2). -/
theorem missing_id_allocation_counterexample :
    (reconcile false [mkRow (.num 1) "A"] [mkRow (.junk "abc") "B"] 0).1.map
        (fun r => toNumeric r.meetingId) = [some 1, none] := by decide

/-- Claim C6 (amended): only an empty-string, single-space or `NaN`
identity cell is treated as missing (other non-numeric identities are
coerced to `NaN` after allocation and the row is appended without an
identity; non-positive numeric identities are kept as-is); the missing ones
are allocated sequentially, and in particular a batch of two rows with
empty identities reconciled against an empty collection receives
identities 1 and 2 and reports added_count = 2. -/
theorem missing_id_allocation (r1 r2 : Row) (now : Int)
    (h1 : r1.meetingId = .junk "") (h2 : r2.meetingId = .junk "") :
    (reconcile false [] [r1, r2] now).1.map (fun r => toNumeric r.meetingId) =
      [some 1, some 2] ∧
    (reconcile false [] [r1, r2] now).2.1 = 2 := by
  have hid1 : (cleanIdRow (statusFill now r1)).meetingId = .na := by
    show cleanId (statusFill now r1).meetingId = .na
    rw [statusFill_meetingId, h1]
    decide
  have hid2 : (cleanIdRow (statusFill now r2)).meetingId = .na := by
    show cleanId (statusFill now r2).meetingId = .na
    rw [statusFill_meetingId, h2]
    decide
  have hall : (([r1, r2].map (statusFill now)).map cleanIdRow).all
      (fun r => isNaCell r.meetingId) = true := by
    show (isNaCell (cleanIdRow (statusFill now r1)).meetingId &&
      (isNaCell (cleanIdRow (statusFill now r2)).meetingId && true)) = true
    rw [hid1, hid2]
    rfl
  rw [reconcile_nil]
  unfold allocateEmpty
  rw [if_pos hall]
  exact ⟨rfl, rfl⟩

theorem missing_id_allocation_witness :
    (reconcile false [] [mkRow (.junk "") "Acme", mkRow (.junk "") "Beta"]
        0).1.map (fun r => toNumeric r.meetingId) = [some 1, some 2] ∧
    (reconcile false [] [mkRow (.junk "") "Acme", mkRow (.junk "") "Beta"]
        0).2.1 = 2 :=
  missing_id_allocation (mkRow (.junk "") "Acme") (mkRow (.junk "") "Beta")
    0 rfl rfl

theorem parseStartTime_empty : parseStartTime "" = none := rfl

/-- Unfolding equation of `calculate_status` when the date is present. -/
theorem calculate_status_some (dv : Int) (s : String) (now : Int) :
    calculate_status (some dv) s now =
      (if strTrim s = "" then "Upcoming"
       else
         match parseStartTime (strTrim s) with
         | none => "Upcoming"
         | some t =>
           let start := Int.fdiv dv 86400 * 86400 + (t : Int)
           if now < start then "Upcoming"
           else if start ≤ now ∧ now < start + 3600 then "Ongoing"
           else "Ended") := rfl

theorem calculate_status_parsed (dv : Int) (s : String) (now : Int) (t : Nat)
    (ht : ¬ strTrim s = "") (hp : parseStartTime (strTrim s) = some t) :
    calculate_status (some dv) s now =
      (if now < Int.fdiv dv 86400 * 86400 + (t : Int) then "Upcoming"
       else if Int.fdiv dv 86400 * 86400 + (t : Int) ≤ now ∧
           now < Int.fdiv dv 86400 * 86400 + (t : Int) + 3600 then "Ongoing"
       else "Ended") := by
  rw [calculate_status_some, if_neg ht, hp]

/-- Claim C4: `calculate_status` returns `"Upcoming"` whenever the
scheduled date is missing or the start time is blank/unparseable;
otherwise, with `start = combine(date.day, time)` and `end = start + 1h`:
`now < start` gives `"Upcoming"`, `start ≤ now < end` gives `"Ongoing"`,
and `now ≥ end` gives `"Ended"`. -/
theorem calculate_status_spec (d : Option Int) (s : String) (now : Int) :
    (d = none → calculate_status d s now = "Upcoming") ∧
    (parseStartTime (strTrim s) = none → calculate_status d s now = "Upcoming") ∧
    (∀ dv : Int, ∀ t : Nat, d = some dv → parseStartTime (strTrim s) = some t →
      ((now < Int.fdiv dv 86400 * 86400 + (t : Int) →
          calculate_status d s now = "Upcoming") ∧
        (Int.fdiv dv 86400 * 86400 + (t : Int) ≤ now →
          now < Int.fdiv dv 86400 * 86400 + (t : Int) + 3600 →
          calculate_status d s now = "Ongoing") ∧
        (Int.fdiv dv 86400 * 86400 + (t : Int) + 3600 ≤ now →
          calculate_status d s now = "Ended"))) := by
  refine ⟨fun h => by rw [h]; rfl, fun hp => ?_, fun dv t hd hp => ?_⟩
  · cases d with
    | none => rfl
    | some dv =>
      by_cases ht : strTrim s = ""
      · rw [calculate_status_some, if_pos ht]
      · rw [calculate_status_some, if_neg ht, hp]
  · subst hd
    have ht : ¬ strTrim s = "" := by
      intro hcon
      rw [hcon, parseStartTime_empty] at hp
      exact Option.noConfusion hp
    rw [calculate_status_parsed dv s now t ht hp]
    refine ⟨fun h => ?_, fun h1 h2 => ?_, fun h => ?_⟩
    · rw [if_pos h]
    · rw [if_neg (not_lt.2 h1), if_pos ⟨h1, h2⟩]
    · have hle : Int.fdiv dv 86400 * 86400 + (t : Int) ≤ now :=
        le_trans (le_add_of_nonneg_right (by norm_num)) h
      rw [if_neg (not_lt.2 hle),
        if_neg (fun hc => absurd hc.2 (not_lt.2 h))]

theorem calculate_status_spec_witness :
    calculate_status (some 0) "0:30" 0 = "Upcoming" ∧
    calculate_status (some 0) "0:30" 1800 = "Ongoing" ∧
    calculate_status (some 0) "0:30" 5400 = "Ended" ∧
    calculate_status none "0:30" 7 = "Upcoming" ∧
    calculate_status (some 0) "not a time" 7 = "Upcoming" :=
  ⟨(((calculate_status_spec (some 0) "0:30" 0).2.2 0 1800 rfl (by decide)).1
      (by decide)),
   (((calculate_status_spec (some 0) "0:30" 1800).2.2 0 1800 rfl (by decide)).2.1
      (by decide) (by decide)),
   (((calculate_status_spec (some 0) "0:30" 5400).2.2 0 1800 rfl (by decide)).2.2
      (by decide)),
   ((calculate_status_spec none "0:30" 7).1 rfl),
   ((calculate_status_spec (some 0) "not a time" 7).2.1 (by decide))⟩

/-- Claim C5: `calculate_status` is a pure total function — the same
inputs always give the same result, no input throws (every branch yields a
value), and `"Completed"` is never among its results. -/
theorem calculate_status_never_completed (d : Option Int) (s : String)
    (now : Int) :
    calculate_status d s now = calculate_status d s now ∧
    calculate_status d s now ≠ "Completed" := by
  refine ⟨rfl, ?_⟩
  cases d with
  | none => exact fun hcon =>
      (show ¬ (("Upcoming" : String) = "Completed") by decide) hcon
  | some dv =>
    by_cases ht : strTrim s = ""
    · rw [calculate_status_some, if_pos ht]
      decide
    · cases hp : parseStartTime (strTrim s) with
      | none =>
        rw [calculate_status_some, if_neg ht, hp]
        exact fun hcon =>
          (show ¬ (("Upcoming" : String) = "Completed") by decide) hcon
      | some t =>
        rw [calculate_status_parsed dv s now t ht hp]
        split
        · decide
        · split <;> decide

theorem upsert_mem (db : List Int) (n i : Int) :
    i ∈ upsert db n ↔ i ∈ db ∨ i = n := by
  unfold upsert
  by_cases h : memInt n db
  · rw [if_pos h]
    constructor
    · exact Or.inl
    · rintro (hi | rfl)
      · exact hi
      · exact memInt_iff.1 h
  · rw [if_neg h]
    simp

theorem syncRows_mem (rs : List Row) (db : List Int) (ok : Bool) (i : Int) :
    i ∈ (syncRows db ok rs).1 ↔
      i ∈ db ∨ ∃ r ∈ rs, toNumeric r.meetingId = some i ∧ 0 < i := by
  induction rs generalizing db ok with
  | nil => simp [syncRows]
  | cons r rs ih =>
    cases hc : toNumeric r.meetingId with
    | none =>
      simp only [syncRows, hc, ih]
      constructor
      · rintro (h | ⟨x, hx, hxe⟩)
        · exact Or.inl h
        · exact Or.inr ⟨x, List.mem_cons_of_mem _ hx, hxe⟩
      · rintro (h | ⟨x, hx, hxe⟩)
        · exact Or.inl h
        · rcases List.mem_cons.1 hx with rfl | hx2
          · rw [hc] at hxe
            exact absurd hxe.1 (by simp)
          · exact Or.inr ⟨x, hx2, hxe⟩
    | some n =>
      simp only [syncRows, hc, save_meeting_to_supabase]
      by_cases hn : n ≤ 0
      · rw [if_pos hn]
        simp only [ih]
        constructor
        · rintro (h | ⟨x, hx, hxe⟩)
          · exact Or.inl h
          · exact Or.inr ⟨x, List.mem_cons_of_mem _ hx, hxe⟩
        · rintro (h | ⟨x, hx, hxe⟩)
          · exact Or.inl h
          · rcases List.mem_cons.1 hx with rfl | hx2
            · rw [hc] at hxe
              obtain ⟨heq, hpos⟩ := hxe
              have : n = i := Option.some.inj heq
              omega
            · exact Or.inr ⟨x, hx2, hxe⟩
      · rw [if_neg hn]
        simp only [ih, upsert_mem]
        constructor
        · rintro (⟨h | rfl⟩ | ⟨x, hx, hxe⟩)
          · exact Or.inl h
          · exact Or.inr ⟨r, List.mem_cons_self _ _, by rw [hc], by omega⟩
          · exact Or.inr ⟨x, List.mem_cons_of_mem _ hx, hxe⟩
        · rintro (h | ⟨x, hx, hxe⟩)
          · exact Or.inl (Or.inl h)
          · rcases List.mem_cons.1 hx with rfl | hx2
            · rw [hc] at hxe
              exact Or.inl (Or.inr (Option.some.inj hxe.1).symm)
            · exact Or.inr ⟨x, hx2, hxe⟩

/-- Claim C7: after `save_meetings` with the relational backend reachable
throughout (`useSupabase` and `poolOk` both true, every delete and upsert
succeeding), the set of identities in the relational backend equals the set
of valid positive identities of the persisted collection: backend rows
absent from the collection are deleted, and every collection row with a
valid positive identity is upserted (rows with missing, non-numeric or
non-positive identities are skipped). -/
theorem save_meetings_sync (db : List Int) (df : List Row) (excelOk : Bool)
    (hdb : ∀ i ∈ db, 0 < i) :
    ∀ i : Int, i ∈ (save_meetings db df true true excelOk).1 ↔
      ∃ r ∈ df, toNumeric r.meetingId = some i ∧ 0 < i := by
  intro i
  cases df with
  | nil =>
    have h1 : (save_meetings db [] true true excelOk).1 = [] := by
      cases excelOk <;> rfl
    rw [h1]
    simp
  | cons r rs =>
    have h1 : (save_meetings db (r :: rs) true true excelOk).1 =
        (syncRows (db.filter (fun j => memInt j (numIds (r :: rs)))) true
          (r :: rs)).1 := by
      cases excelOk <;> rfl
    rw [h1, syncRows_mem]
    constructor
    · rintro (hdb1 | hex)
      · obtain ⟨hidb, hmem⟩ := List.mem_filter.1 hdb1
        obtain ⟨x, hx, hxe⟩ := List.mem_filterMap.1 (memInt_iff.1 hmem)
        exact ⟨x, hx, hxe, hdb i hidb⟩
      · exact hex
    · exact Or.inr

theorem save_meetings_sync_witness :
    2 ∈ (save_meetings [1] [mkRow (.num 2) "A"] true true true).1 ↔
      ∃ r ∈ [mkRow (.num 2) "A"], toNumeric r.meetingId = some 2 ∧ (0 : Int) < 2 :=
  save_meetings_sync [1] [mkRow (.num 2) "A"] true (by decide) 2

/-- Claim C8: in `save_meetings` a flat-file (Excel) write failure is
escalated as a `False` return only when the relational path is not in use:
with `get_use_supabase()` true the returned boolean does not depend on the
Excel outcome at all, and with it false an Excel failure on a non-empty
collection returns `False`. -/
theorem save_meetings_excel_failure (db : List Int) (df : List Row)
    (poolOk e e' : Bool) :
    (save_meetings db df true poolOk e).2 = (save_meetings db df true poolOk e').2 ∧
    (df ≠ [] → (save_meetings db df false poolOk false).2 = false) := by
  constructor
  · cases df with
    | nil => cases e <;> cases e' <;> rfl
    | cons r rs => cases e <;> cases e' <;> rfl
  · intro hne
    cases df with
    | nil => exact absurd rfl hne
    | cons r rs => rfl

theorem save_meetings_excel_failure_witness :
    (save_meetings [1] [mkRow (.num 2) "A"] true true false).2 =
      (save_meetings [1] [mkRow (.num 2) "A"] true true true).2 ∧
    (save_meetings [1] [mkRow (.num 2) "A"] false true false).2 = false :=
  ⟨(save_meetings_excel_failure [1] [mkRow (.num 2) "A"] true false true).1,
   (save_meetings_excel_failure [1] [mkRow (.num 2) "A"] true false true).2
     (by decide)⟩

/-- With the status filter at its "All" sentinel and no date bounds, only
the search predicate of `filter_meetings` is active. -/
theorem filter_meetings_all_none (df : List Row) (st : String) :
    filter_meetings df "All" none none st =
      (if st ≠ "" then df.filter (searchHit st) else df) := by
  unfold filter_meetings
  rw [if_neg (by decide : ¬ (("All" : String) ≠ "All"))]

/-- Claim C9, counterexample to the claim as stated: whitespace-only search
text does not disable the free-text filter — `if search_text:` is false
only for the empty string, so `" "` is applied as a pattern and filters out
a record none of whose searchable fields contain a space. -/
theorem filter_meetings_whitespace_counterexample :
    filter_meetings
      [⟨.num 1, "Upcoming", none, "", "T1", "AcmeCorp", "C", "S", "P", "A",
        "G", "N", []⟩] "All" none none " " = [] := by decide

/-- Claim C9 (amended): an empty search text disables the free-text filter
entirely (whitespace-only text does not — it is applied as a pattern, see
the counterexample); non-empty search text free of regex metacharacters —
the fragment where `str.contains`'s default regex matching degenerates to
a substring test — selects exactly the records for which the
case-insensitive substring match holds for at least one of the fixed
search columns.  Search text containing regex metacharacters is applied by
the source as a regular expression (an invalid pattern raises an uncaught
`re.error`) and lies outside this characterization. -/
theorem filter_meetings_search (df : List Row) (st : String) :
    (st = "" → filter_meetings df "All" none none st = df) ∧
    (st ≠ "" → isLiteralPattern st = true → ∀ r : Row,
      r ∈ filter_meetings df "All" none none st ↔
        r ∈ df ∧ ∃ f ∈ [r.title, r.organization, r.client, r.stakeholder,
          r.purpose, r.attendees, r.guests, r.notes],
          containsLower f st = true) := by
  constructor
  · intro h
    rw [filter_meetings_all_none, if_neg (by rw [h]; exact fun hc => hc rfl)]
  · intro hne _hlit r
    rw [filter_meetings_all_none, if_pos hne, List.mem_filter]
    constructor
    · rintro ⟨hdf, hhit⟩
      refine ⟨hdf, ?_⟩
      simp only [searchHit, Bool.or_eq_true] at hhit
      rcases hhit with (((((((h | h) | h) | h) | h) | h) | h) | h)
      exacts [⟨r.title, by simp, h⟩, ⟨r.organization, by simp, h⟩,
        ⟨r.client, by simp, h⟩, ⟨r.stakeholder, by simp, h⟩,
        ⟨r.purpose, by simp, h⟩, ⟨r.attendees, by simp, h⟩,
        ⟨r.guests, by simp, h⟩, ⟨r.notes, by simp, h⟩]
    · rintro ⟨hdf, f, hf, hP⟩
      refine ⟨hdf, ?_⟩
      simp only [List.mem_cons, List.not_mem_nil, or_false] at hf
      simp only [searchHit, Bool.or_eq_true]
      rcases hf with rfl | rfl | rfl | rfl | rfl | rfl | rfl | rfl <;> tauto

theorem filter_meetings_search_witness :
    filter_meetings [mkRow (.num 1) "Acme"] "All" none none "" =
      [mkRow (.num 1) "Acme"] ∧
    (mkRow (.num 1) "Acme" ∈
        filter_meetings [mkRow (.num 1) "Acme"] "All" none none "acme" ↔
      mkRow (.num 1) "Acme" ∈ [mkRow (.num 1) "Acme"] ∧
      ∃ f ∈ [(mkRow (.num 1) "Acme").title, (mkRow (.num 1) "Acme").organization,
        (mkRow (.num 1) "Acme").client, (mkRow (.num 1) "Acme").stakeholder,
        (mkRow (.num 1) "Acme").purpose, (mkRow (.num 1) "Acme").attendees,
        (mkRow (.num 1) "Acme").guests, (mkRow (.num 1) "Acme").notes],
        containsLower f "acme" = true) :=
  ⟨(filter_meetings_search [mkRow (.num 1) "Acme"] "").1 rfl,
   ((filter_meetings_search [mkRow (.num 1) "Acme"] "acme").2 (by decide)
     (by decide)) (mkRow (.num 1) "Acme")⟩

/-- Claim C10: `normalize_status` is total and its result always lies in
the four-state set {Upcoming, Ongoing, Ended, Completed}; `None`, `NaN`,
empty and whitespace-only inputs map to `"Upcoming"`; synonym spellings
map into the set (`done`/`finished` to `"Ended"`, `in progress` to
`"Ongoing"`); and any value whose trimmed lower-case form is not a
recognized non-Upcoming spelling maps to `"Upcoming"`. -/
theorem normalize_status_spec :
    (∀ x : StatusInput, normalize_status x ∈
      (["Upcoming", "Ongoing", "Ended", "Completed"] : List String)) ∧
    normalize_status .noneV = "Upcoming" ∧
    normalize_status .nanV = "Upcoming" ∧
    normalize_status (.strV "") = "Upcoming" ∧
    normalize_status (.strV "   ") = "Upcoming" ∧
    normalize_status (.strV "done") = "Ended" ∧
    normalize_status (.strV "finished") = "Ended" ∧
    normalize_status (.strV "in progress") = "Ongoing" ∧
    (∀ v : String, strLower (strTrim v) ∉ nonUpcomingSpellings →
      normalize_status (.strV v) = "Upcoming") := by
  refine ⟨?_, by decide, by decide, by decide, by decide, by decide,
    by decide, by decide, ?_⟩
  · intro x
    cases x with
    | noneV => decide
    | nanV => decide
    | strV v =>
      simp only [normalize_status]
      split
      · decide
      split
      · decide
      split
      · decide
      split
      · decide
      split
      · decide
      split
      · decide
      split
      · next h => exact h
      · decide
  · intro v hv
    simp only [normalize_status]
    split
    · rfl
    split
    · rfl
    split
    · rfl
    split
    next hong =>
      exact absurd (by
        simp only [nonUpcomingSpellings, List.mem_cons, List.not_mem_nil,
          or_false] at hong ⊢
        tauto) hv
    next hong =>
    split
    next hcomp =>
      exact absurd (by
        simp only [nonUpcomingSpellings, List.mem_cons, List.not_mem_nil,
          or_false]
        tauto) hv
    next hcomp =>
    split
    next hend =>
      exact absurd (by
        simp only [nonUpcomingSpellings, List.mem_cons, List.not_mem_nil,
          or_false] at hend ⊢
        tauto) hv
    next hend =>
    split
    next h4 =>
      simp only [List.mem_cons, List.not_mem_nil, or_false] at h4
      rcases h4 with h | h | h | h
      · exact h
      · rw [h] at hong
        exact absurd (by decide) hong
      · rw [h] at hend
        exact absurd (by decide) hend
      · rw [h] at hcomp
        exact absurd (by decide) hcomp
    next => rfl

theorem normalize_status_spec_witness :
    normalize_status (.strV "mystery value") = "Upcoming" :=
  normalize_status_spec.2.2.2.2.2.2.2.2 "mystery value" (by decide)
